import Mathlib

/-!
Verification development for the DOM fingerprinting core of
`browser-use-typescript`.

The embedded source files are:
* `src/browser_use/dom/service.ts` — `DOMService.constructDOMTree` / `parseNode`
* `src/browser_use/dom/clickable_element_processor/service.ts` —
  `ClickableElementProcessor`
* the history tree processor module (`HistoryTreeProcessor` and the
  `DOMHistoryElement` / `HashedDomElement` type definitions)

Modelling conventions:
* The mutable, parent-linked node graph produced by `constructDOMTree` is
  embedded as an arena: an association list from node id (the raw snapshot's
  string keys) to node records, where each record stores its parent id and its
  child ids.  `childNode.parent = node` / `node.children.push(childNode)`
  become functional updates of the arena.
* JavaScript `Record` objects iterated with `Object.entries` are embedded as
  association lists carrying their iteration order.
* Machine numbers are `Nat` with explicit `% 2^32` where overflow matters.
* Tree traversals that recurse through arena ids take an explicit fuel
  argument (structural recursion on the fuel); the JavaScript functions have
  no fuel and diverge on cyclic graphs, which the model maps to fuel
  exhaustion.  All traversal theorems are fuel-generic or instantiate the
  fuel at a size that suffices for the acyclic case.
* `createHash('sha256').update(s).digest('hex')` is embedded as a full
  SHA-256 implementation over the UTF-8 bytes of `s`.
-/

namespace SHA256

/-- Right rotation of a 32-bit word. -/
def rotr (n x : Nat) : Nat := ((x >>> n) ||| (x <<< (32 - n))) % 4294967296

/-- Bitwise complement within 32 bits. -/
def comp32 (x : Nat) : Nat := Nat.xor x 4294967295

def bigSigma0 (x : Nat) : Nat := Nat.xor (Nat.xor (rotr 2 x) (rotr 13 x)) (rotr 22 x)
def bigSigma1 (x : Nat) : Nat := Nat.xor (Nat.xor (rotr 6 x) (rotr 11 x)) (rotr 25 x)
def smallSigma0 (x : Nat) : Nat := Nat.xor (Nat.xor (rotr 7 x) (rotr 18 x)) (x >>> 3)
def smallSigma1 (x : Nat) : Nat := Nat.xor (Nat.xor (rotr 17 x) (rotr 19 x)) (x >>> 10)

def ch (x y z : Nat) : Nat := Nat.xor (Nat.land x y) (Nat.land (comp32 x) z)
def maj (x y z : Nat) : Nat := Nat.xor (Nat.xor (Nat.land x y) (Nat.land x z)) (Nat.land y z)

/-- The 64 SHA-256 round constants (decimal). -/
def K : List Nat :=
  [1116352408, 1899447441, 3049323471, 3921009573, 961987163,
   1508970993, 2453635748, 2870763221, 3624381080, 310598401,
   607225278, 1426881987, 1925078388, 2162078206, 2614888103,
   3248222580, 3835390401, 4022224774, 264347078, 604807628,
   770255983, 1249150122, 1555081692, 1996064986, 2554220882,
   2821834349, 2952996808, 3210313671, 3336571891, 3584528711,
   113926993, 338241895, 666307205, 773529912, 1294757372,
   1396182291, 1695183700, 1986661051, 2177026350, 2456956037,
   2730485921, 2820302411, 3259730800, 3345764771, 3516065817,
   3600352804, 4094571909, 275423344, 430227734, 506948616,
   659060556, 883997877, 958139571, 1322822218, 1537002063,
   1747873779, 1955562222, 2024104815, 2227730452, 2361852424,
   2428436474, 2756734187, 3204031479, 3329325298]

/-- The initial hash state (decimal). -/
def H0 : List Nat :=
  [1779033703, 3144134277, 1013904242, 2773480762, 1359893119,
   2600822924, 528734635, 1541459225]

/-- The 8-byte big-endian encoding of `n`. -/
def lengthBytes (n : Nat) : List Nat :=
  [(n >>> 56) % 256, (n >>> 48) % 256, (n >>> 40) % 256, (n >>> 32) % 256,
   (n >>> 24) % 256, (n >>> 16) % 256, (n >>> 8) % 256, n % 256]

/-- Standard SHA-256 padding: a `0x80` byte, zero bytes up to 56 mod 64, then
the bit length as 8 big-endian bytes. -/
def padMessage (msg : List Nat) : List Nat :=
  let len := msg.length
  let padZeros := (119 - (len % 64)) % 64
  msg ++ [128] ++ List.replicate padZeros 0 ++ lengthBytes (len * 8)

/-- Split a byte list into 64-byte blocks (structural fuel recursion so that
the kernel can evaluate it). -/
def chunks : Nat → List Nat → List (List Nat)
  | 0, _ => []
  | _, [] => []
  | fuel + 1, l => l.take 64 :: chunks fuel (l.drop 64)

/-- Big-endian 32-bit word from four bytes. -/
def beWord (b0 b1 b2 b3 : Nat) : Nat := ((b0 * 256 + b1) * 256 + b2) * 256 + b3

/-- Pack a byte list into big-endian 32-bit words. -/
def toWords : List Nat → List Nat
  | b0 :: b1 :: b2 :: b3 :: rest => beWord b0 b1 b2 b3 :: toWords rest
  | _ => []

/-- One message-schedule extension step, appending `w[n]` from
`w[n-2], w[n-7], w[n-15], w[n-16]`. -/
def scheduleStep (w : List Nat) : List Nat :=
  let n := w.length
  w ++ [(smallSigma1 (w.getD (n - 2) 0) + w.getD (n - 7) 0 +
         smallSigma0 (w.getD (n - 15) 0) + w.getD (n - 16) 0) % 4294967296]

/-- Iterate the schedule extension. -/
def schedule : List Nat → Nat → List Nat
  | w, 0 => w
  | w, fuel + 1 => schedule (scheduleStep w) fuel

/-- One compression round on the state `[a,b,c,d,e,f,g,h]`. -/
def round (st : List Nat) (ki wi : Nat) : List Nat :=
  match st with
  | [a, b, c, d, e, f, g, h] =>
    let t1 := (h + bigSigma1 e + ch e f g + ki + wi) % 4294967296
    let t2 := (bigSigma0 a + maj a b c) % 4294967296
    [(t1 + t2) % 4294967296, a, b, c, (d + t1) % 4294967296, e, f, g]
  | _ => st

/-- Compress one 64-byte block into the running hash state. -/
def compressBlock (h : List Nat) (block : List Nat) : List Nat :=
  let ws := schedule (toWords block) 48
  let st := (K.zip ws).foldl (fun s kw => round s kw.1 kw.2) h
  (h.zip st).map (fun p => (p.1 + p.2) % 4294967296)

/-- SHA-256 over a byte list, producing the eight 32-bit state words. -/
def sha256Words (msg : List Nat) : List Nat :=
  let padded := padMessage msg
  (chunks padded.length padded).foldl compressBlock H0

/-- Lower-case hex digit. -/
def hexDigit (n : Nat) : Char :=
  if n < 10 then Char.ofNat (48 + n) else Char.ofNat (87 + n)

/-- Eight-hex-digit rendering of a 32-bit word. -/
def wordHex (x : Nat) : String :=
  String.mk ((List.range 8).map (fun i => hexDigit ((x >>> ((7 - i) * 4)) % 16)))

/-- Lower-case hex digest of a byte list, as produced by `digest('hex')`. -/
def sha256Hex (msg : List Nat) : String :=
  String.join ((sha256Words msg).map wordHex)

/-- UTF-8 encoding of a single code point. -/
def utf8EncodeChar (c : Nat) : List Nat :=
  if c < 128 then [c]
  else if c < 2048 then [192 ||| (c >>> 6), 128 ||| (c &&& 63)]
  else if c < 65536 then
    [224 ||| (c >>> 12), 128 ||| ((c >>> 6) &&& 63), 128 ||| (c &&& 63)]
  else
    [240 ||| (c >>> 18), 128 ||| ((c >>> 12) &&& 63), 128 ||| ((c >>> 6) &&& 63),
     128 ||| (c &&& 63)]

/-- UTF-8 bytes of a string, the input fed to `createHash('sha256').update`. -/
def utf8Bytes (s : String) : List Nat :=
  (s.data.map (fun c => utf8EncodeChar c.toNat)).flatten

end SHA256

/-- SHA-256 hex digest of a string: the embedding of the `_hashString` helper
shared (verbatim) by `HistoryTreeProcessor` and `ClickableElementProcessor`:
`createHash('sha256').update(str || '').digest('hex')`. -/
def hashString (s : String) : String :=
  SHA256.sha256Hex (SHA256.utf8Bytes s)

/-! ## Data model (`dom/types.ts`)

Node ids are the string keys of the raw snapshot table.  The parent-linked
node graph is an arena: an association list `NodeMap` from id to node record,
in which `parent` and `children` store ids.  JavaScript object field order is
carried by the association lists. -/

/-- `ViewportInfo` from `dom/types.ts`.  TS `number` is embedded as `Int`. -/
structure ViewportInfo where
  width : Int
  height : Int
deriving DecidableEq, Repr

/-- `CoordinateSet` from `dom/types.ts`. -/
structure CoordinateSet where
  top : Int
  left : Int
  bottom : Int
  right : Int
  width : Int
  height : Int
deriving DecidableEq, Repr

/-- The data fields of a `DOMTextNode` (everything except the `parent`
back-reference, which lives in the arena record). -/
structure DOMTextNodeData where
  text : String
  isVisible : Bool
deriving DecidableEq, Repr

/-- The data fields of a `DOMElementNode` (everything except `parent` and
`children`, which live in the arena record). -/
structure DOMElementNodeData where
  tagName : String
  xpath : String
  attributes : List (String × String)
  isVisible : Bool
  isInteractive : Bool
  isTopElement : Bool
  isInViewport : Bool
  highlightIndex : Option Nat
  shadowRoot : Bool
  viewportInfo : Option ViewportInfo
  pageCoordinates : Option CoordinateSet
  viewportCoordinates : Option CoordinateSet
deriving DecidableEq, Repr

/-- A node of the constructed graph: the `DOMTextNode | DOMElementNode`
union, with `parent` as an optional id and element `children` as a list of
ids into the arena. -/
inductive DOMBaseNode where
  | text (data : DOMTextNodeData) (parent : Option String)
  | element (data : DOMElementNodeData) (children : List String) (parent : Option String)
deriving DecidableEq, Repr

/-- The arena: `nodeMap` from `constructDOMTree`, an id-keyed association
list in insertion order. -/
abbrev NodeMap := List (String × DOMBaseNode)

/-- `SelectorMap` (`Record<number, DOMElementNode>`): highlight index to node
id.  The JS object stores a live reference to the node; the arena id plays
that role here. -/
abbrev SelectorMap := List (Nat × String)

/-- Raw element record of the snapshot schema (§6 of the spec, consumed by
`parseNode`). -/
structure RawElementData where
  tagName : String
  xpath : String
  attributes : List (String × String)
  children : List String
  isVisible : Bool
  isInteractive : Bool
  isTopElement : Bool
  isInViewport : Bool
  highlightIndex : Option Nat
  shadowRoot : Bool
  viewport : Option ViewportInfo
deriving DecidableEq, Repr

/-- A raw snapshot node: `{type:"TEXT_NODE",...}` or an element record. -/
inductive RawNode where
  | text (text : String) (isVisible : Bool)
  | element (data : RawElementData)
deriving DecidableEq, Repr

/-! ## Arena primitives -/

/-- Key lookup in an association list (JS object property read). -/
def lookupNode : NodeMap → String → Option DOMBaseNode
  | [], _ => none
  | (k, n) :: rest, id => if k == id then some n else lookupNode rest id

/-- Key assignment in an association list (JS object property write):
replaces in place if the key exists, otherwise appends. -/
def setNode : NodeMap → String → DOMBaseNode → NodeMap
  | [], id, n => [(id, n)]
  | (k, m) :: rest, id, n =>
    if k == id then (id, n) :: rest else (k, m) :: setNode rest id n

/-- The parent id stored on a node. -/
def nodeParent : DOMBaseNode → Option String
  | .text _ p => p
  | .element _ _ p => p

/-- The children ids stored on a node (`[]` for text nodes). -/
def nodeChildren : DOMBaseNode → List String
  | .text _ _ => []
  | .element _ cs _ => cs

/-- The parent back-reference of the node at `id`, if the id resolves. -/
def parentOf (nm : NodeMap) (id : String) : Option String :=
  match lookupNode nm id with
  | some n => nodeParent n
  | none => none

/-- The realized children ids of the node at `id` (`[]` if unresolved). -/
def childrenOf (nm : NodeMap) (id : String) : List String :=
  match lookupNode nm id with
  | some n => nodeChildren n
  | none => []

/-! ## Tree construction (`DOMService.parseNode` / `constructDOMTree`) -/

/-- `DOMService.parseNode`: build the typed node for one raw record and
return its declared child-id list.  Text records never get children; element
records start with `children: []` and `parent: null`; coordinates are not set
by `parseNode`. -/
def parseNode : RawNode → DOMBaseNode × List String
  | .text t v => (.text ⟨t, v⟩ none, [])
  | .element d =>
    (.element
      { tagName := d.tagName
        xpath := d.xpath
        attributes := d.attributes
        isVisible := d.isVisible
        isInteractive := d.isInteractive
        isTopElement := d.isTopElement
        isInViewport := d.isInViewport
        highlightIndex := d.highlightIndex
        shadowRoot := d.shadowRoot
        viewportInfo := d.viewport
        pageCoordinates := none
        viewportCoordinates := none } [] none,
     d.children)

/-- `childNode.parent = node`: point the parent back-reference of `cid` at
`pid` (no-op if `cid` is not in the arena; the caller checks first). -/
def setParentOf (nm : NodeMap) (cid pid : String) : NodeMap :=
  match lookupNode nm cid with
  | some (.text d _) => setNode nm cid (.text d (some pid))
  | some (.element d cs _) => setNode nm cid (.element d cs (some pid))
  | none => nm

/-- `node.children.push(childNode)`: append `cid` to the realized children of
the element at `pid`. -/
def pushChild (nm : NodeMap) (pid cid : String) : NodeMap :=
  match lookupNode nm pid with
  | some (.element d cs p) => setNode nm pid (.element d (cs ++ [cid]) p)
  | _ => nm

/-- The child-wiring loop of `constructDOMTree`: for each declared child id
in order, skip it if it is not (yet) in `nodeMap`, otherwise set its parent
back-reference and push it onto the parent's realized children. -/
def attachChildren (pid : String) : NodeMap → List String → NodeMap
  | nm, [] => nm
  | nm, cid :: rest =>
    if (lookupNode nm cid).isSome then
      attachChildren pid (pushChild (setParentOf nm cid pid) pid cid) rest
    else
      attachChildren pid nm rest

/-- Selector-map assignment `selectorMap[node.highlightIndex] = node`. -/
def smSet : SelectorMap → Nat → String → SelectorMap
  | [], hi, id => [(hi, id)]
  | (k, v) :: rest, hi, id =>
    if k == hi then (hi, id) :: rest else (k, v) :: smSet rest hi id

/-- The main loop of `constructDOMTree` over `Object.entries(jsNodeMap)`:
parse the record, store it, register its highlight index in the selector map,
and wire its already-present children. -/
def processEntries : List (String × RawNode) → NodeMap → SelectorMap → NodeMap × SelectorMap
  | [], nm, sm => (nm, sm)
  | (id, raw) :: rest, nm, sm =>
    let (node, childrenIds) := parseNode raw
    let nm1 := setNode nm id node
    let sm1 :=
      match node with
      | .element d _ _ =>
        match d.highlightIndex with
        | some hi => smSet sm hi id
        | none => sm
      | .text _ _ => sm
    let nm2 :=
      match node with
      | .element _ _ _ => attachChildren id nm1 childrenIds
      | .text _ _ => nm1
    processEntries rest nm2 sm1

/-- `DOMService.constructDOMTree`: process all entries, then require the root
id to resolve to an element node (`'tagName' in htmlToDict`); otherwise throw
`Failed to parse HTML to dictionary`.  On success the result is the root id,
the arena, and the selector map. -/
def constructDOMTree (entries : List (String × RawNode)) (rootId : String) :
    Except String (String × NodeMap × SelectorMap) :=
  let (nm, sm) := processEntries entries [] []
  match lookupNode nm rootId with
  | some (.element _ _ _) => .ok (rootId, nm, sm)
  | _ => .error "Failed to parse HTML to dictionary"

/-- The arena produced for `entries` (shared by both branches of
`constructDOMTree`). -/
def constructedNodeMap (entries : List (String × RawNode)) : NodeMap :=
  (processEntries entries [] []).1

/-- The selector map produced for `entries`. -/
def constructedSelectorMap (entries : List (String × RawNode)) : SelectorMap :=
  (processEntries entries [] []).2

/-! ## Fingerprinting and history records (history tree processor module) -/

/-- `HashedDomElement` from the history tree processor type definitions. -/
structure HashedDomElement where
  branchPathHash : String
  attributesHash : String
  xpathHash : String
deriving DecidableEq, Repr

/-- `DOMHistoryElement` from the history tree processor type definitions.
`highlightIndex : number | null` becomes `Option Nat`; the optional fields
become `Option`s. -/
structure DOMHistoryElement where
  tagName : String
  xpath : String
  highlightIndex : Option Nat
  entireParentBranchPath : List String
  attributes : List (String × String)
  shadowRoot : Bool
  cssSelector : Option String
  pageCoordinates : Option CoordinateSet
  viewportCoordinates : Option CoordinateSet
  viewportInfo : Option ViewportInfo
deriving DecidableEq, Repr

/-- The element data stored at `id`, when `id` resolves to an element. -/
def elementDataOf (nm : NodeMap) (id : String) : Option DOMElementNodeData :=
  match lookupNode nm id with
  | some (.element d _ _) => some d
  | _ => none

/-- The attribute map of the element at `id` (empty when unresolved; missing
fields hash as empty input, the `HashInputIncomplete` policy). -/
def attributesOf (nm : NodeMap) (id : String) : List (String × String) :=
  match elementDataOf nm id with
  | some d => d.attributes
  | none => []

/-- The xpath of the element at `id` (empty when unresolved). -/
def xpathOf (nm : NodeMap) (id : String) : String :=
  match elementDataOf nm id with
  | some d => d.xpath
  | none => ""

/-- The highlight index of the element at `id`. -/
def highlightIndexOf (nm : NodeMap) (id : String) : Option Nat :=
  match elementDataOf nm id with
  | some d => d.highlightIndex
  | none => none

namespace HistoryTreeProcessor

/-- The upward walk of `_getParentBranchPath` before the final `reverse`:
starting at `id`, while the current node has a parent, record its tag name
and move to the parent.  The parentless top node is never recorded.  (In the
source the loop collects node references and maps `tagName` after reversing;
recording tag names directly is the same.)  The fuel bounds the walk, which
in the source diverges on a cyclic parent chain. -/
def collectParents (nm : NodeMap) : Nat → String → List String
  | 0, _ => []
  | fuel + 1, id =>
    match lookupNode nm id with
    | some (.element d _ (some p)) => d.tagName :: collectParents nm fuel p
    | _ => []

/-- `_getParentBranchPath`: the upward walk, reversed into top-to-bottom
order. -/
def getParentBranchPath (fuel : Nat) (nm : NodeMap) (id : String) : List String :=
  (collectParents nm fuel id).reverse

/-- `_parentBranchPathHash`: join the path with `/` and hash. -/
def parentBranchPathHash (parentBranchPath : List String) : String :=
  hashString (String.intercalate "/" parentBranchPath)

/-- `_attributesHash`: concatenate `key=value` over `Object.entries` of the
attribute map, with no separator, and hash. -/
def attributesHash (attributes : List (String × String)) : String :=
  hashString (String.join (attributes.map (fun p => p.1 ++ "=" ++ p.2)))

/-- `_xpathHash`: hash the absolute xpath verbatim. -/
def xpathHash (xpath : String) : String :=
  hashString xpath

/-- `_hashDomElement`: fingerprint the element at `id` from its recomputed
parent branch path, its attributes, and its xpath. -/
def hashDomElement (hf : Nat) (nm : NodeMap) (id : String) : HashedDomElement :=
  { branchPathHash := parentBranchPathHash (getParentBranchPath hf nm id)
    attributesHash := attributesHash (attributesOf nm id)
    xpathHash := xpathHash (xpathOf nm id) }

/-- `_hashDomHistoryElement`: fingerprint a history record from its stored
fields. -/
def hashDomHistoryElement (h : DOMHistoryElement) : HashedDomElement :=
  { branchPathHash := parentBranchPathHash h.entireParentBranchPath
    attributesHash := attributesHash h.attributes
    xpathHash := xpathHash h.xpath }

/-- The three `===` comparisons used by `findHistoryElementInTree` and
`compareHistoryElementAndDomElement`. -/
def hashesEqual (a b : HashedDomElement) : Bool :=
  a.branchPathHash == b.branchPathHash &&
  a.attributesHash == b.attributesHash &&
  a.xpathHash == b.xpathHash

/-- `convertDomElementToHistoryElement`: capture the fingerprint-relevant
fields of the element at `id`.  `cssSelector` is left unset in the source. -/
def convertDomElementToHistoryElement (hf : Nat) (nm : NodeMap) (id : String) :
    Option DOMHistoryElement :=
  (elementDataOf nm id).map fun d =>
    { tagName := d.tagName
      xpath := d.xpath
      highlightIndex := d.highlightIndex
      entireParentBranchPath := getParentBranchPath hf nm id
      attributes := d.attributes
      shadowRoot := d.shadowRoot
      cssSelector := none
      pageCoordinates := d.pageCoordinates
      viewportCoordinates := d.viewportCoordinates
      viewportInfo := d.viewportInfo }

/-- The inner `processNode` of `findHistoryElementInTree`: if the node at
`id` carries a highlight index and its fingerprint equals the target, return
it; otherwise search its children in order, skipping text nodes (a child id
that is not an element contributes nothing, which also covers the unreachable
dangling-id case).  The fuel bounds the recursion depth. -/
def processNode (hf : Nat) (target : HashedDomElement) (nm : NodeMap) :
    Nat → String → Option String
  | 0, _ => none
  | fuel + 1, id =>
    match lookupNode nm id with
    | some (.element d cs _) =>
      if d.highlightIndex.isSome && hashesEqual (hashDomElement hf nm id) target then
        some id
      else
        cs.findSome? (processNode hf target nm fuel)
    | _ => none

/-- `findHistoryElementInTree`: fingerprint the history record once, then
run `processNode` from the tree root. -/
def findHistoryElementInTree (hf fuel : Nat) (h : DOMHistoryElement)
    (nm : NodeMap) (tree : String) : Option String :=
  processNode hf (hashDomHistoryElement h) nm fuel tree

/-- `compareHistoryElementAndDomElement`: the pairwise composite-hash
comparison. -/
def compareHistoryElementAndDomElement (hf : Nat) (h : DOMHistoryElement)
    (nm : NodeMap) (id : String) : Bool :=
  hashesEqual (hashDomHistoryElement h) (hashDomElement hf nm id)

end HistoryTreeProcessor

namespace ClickableElementProcessor

/-- `getClickableElements`: walk the children of the node at `id` (the node
itself is never examined), skipping text nodes; push each element child that
carries a highlight index, then recurse into it.  The fuel bounds the
depth. -/
def getClickableElements (nm : NodeMap) : Nat → String → List String
  | 0, _ => []
  | fuel + 1, id =>
    match lookupNode nm id with
    | some (.element _ cs _) =>
      (cs.map fun c =>
        match lookupNode nm c with
        | some (.element d _ _) =>
          (if d.highlightIndex.isSome then [c] else []) ++
            getClickableElements nm fuel c
        | _ => []).flatten
    | _ => []

/-- `ClickableElementProcessor.hashDomElement`: the composite fingerprint —
the SHA-256 digest of the three component digests joined with `-`.  The
component helpers in this class are verbatim copies of the history tree
processor's, so they are shared here. -/
def hashDomElement (hf : Nat) (nm : NodeMap) (id : String) : String :=
  let branchPathHash :=
    HistoryTreeProcessor.parentBranchPathHash
      (HistoryTreeProcessor.getParentBranchPath hf nm id)
  let attributesHash := HistoryTreeProcessor.attributesHash (attributesOf nm id)
  let xpathHash := HistoryTreeProcessor.xpathHash (xpathOf nm id)
  hashString (branchPathHash ++ "-" ++ attributesHash ++ "-" ++ xpathHash)

/-- First-occurrence deduplication with an accumulator of already-seen
strings: the effect of `new Set(array)` on membership and order. -/
def dedupAux : List String → List String → List String
  | [], _ => []
  | x :: xs, seen =>
    if x ∈ seen then dedupAux xs seen else x :: dedupAux xs (x :: seen)

/-- `new Set(array)`, as the list of first occurrences. -/
def dedupFirst (l : List String) : List String :=
  dedupAux l []

/-- `getClickableElementsHashes`: collect the clickable elements and take the
set of their composite fingerprints. -/
def getClickableElementsHashes (hf fuel : Nat) (nm : NodeMap) (id : String) :
    List String :=
  dedupFirst ((getClickableElements nm fuel id).map (hashDomElement hf nm))

end ClickableElementProcessor

/-! ## JSON serialization of history records

Modelled from the spec: persistence of `DOMHistoryElement` values "only
requires that the record be round-trippable through a structural
serialization (field-for-field JSON is sufficient)".  The core itself ships
no dedicated serializer (history logs go through `JSON.stringify` /
`JSON.parse` of plain records), so the JSON value round-trip is modelled
here: a JSON value tree, the field-for-field encoding of a record in the
interface's field order with `undefined` optional fields omitted (as
`JSON.stringify` omits them) and the `number | null` highlight index kept as
JSON null, and the corresponding decoder. -/

inductive Json where
  | null
  | bool (b : Bool)
  | num (n : Int)
  | str (s : String)
  | arr (items : List Json)
  | obj (fields : List (String × Json))

/-- Field lookup in a JSON object. -/
def jGet : List (String × Json) → String → Option Json
  | [], _ => none
  | (k, v) :: rest, key => if k == key then some v else jGet rest key

def asStr : Json → Option String
  | .str s => some s
  | _ => none

def asNum : Json → Option Int
  | .num n => some n
  | _ => none

def asBool : Json → Option Bool
  | .bool b => some b
  | _ => none

/-- An optional field: present when the value is present, omitted when it is
`undefined`, exactly as `JSON.stringify` drops `undefined` members. -/
def optField (key : String) : Option Json → List (String × Json)
  | some j => [(key, j)]
  | none => []

def coordinateSetToJson (c : CoordinateSet) : Json :=
  .obj [("top", .num c.top), ("left", .num c.left), ("bottom", .num c.bottom),
        ("right", .num c.right), ("width", .num c.width), ("height", .num c.height)]

def coordinateSetFromJson (j : Json) : Option CoordinateSet :=
  match j with
  | .obj fs => do
    let top ← jGet fs "top" >>= asNum
    let left ← jGet fs "left" >>= asNum
    let bottom ← jGet fs "bottom" >>= asNum
    let right ← jGet fs "right" >>= asNum
    let width ← jGet fs "width" >>= asNum
    let height ← jGet fs "height" >>= asNum
    pure ⟨top, left, bottom, right, width, height⟩
  | _ => none

def viewportInfoToJson (v : ViewportInfo) : Json :=
  .obj [("width", .num v.width), ("height", .num v.height)]

def viewportInfoFromJson (j : Json) : Option ViewportInfo :=
  match j with
  | .obj fs => do
    let width ← jGet fs "width" >>= asNum
    let height ← jGet fs "height" >>= asNum
    pure ⟨width, height⟩
  | _ => none

/-- Decode a JSON array of strings. -/
def strListFromJson : List Json → Option (List String)
  | [] => some []
  | j :: rest => do
    let s ← asStr j
    let tail ← strListFromJson rest
    pure (s :: tail)

/-- Decode a JSON object into an ordered string-to-string map. -/
def attrsFromJson : List (String × Json) → Option (List (String × String))
  | [] => some []
  | (k, j) :: rest => do
    let v ← asStr j
    let tail ← attrsFromJson rest
    pure ((k, v) :: tail)

/-- Field-for-field JSON encoding of a `DOMHistoryElement`, in the
interface's field order. -/
def historyElementToJson (h : DOMHistoryElement) : Json :=
  .obj
    ([("tagName", .str h.tagName),
      ("xpath", .str h.xpath),
      ("highlightIndex",
        match h.highlightIndex with
        | some n => .num (n : Int)
        | none => .null),
      ("entireParentBranchPath", .arr (h.entireParentBranchPath.map Json.str)),
      ("attributes", .obj (h.attributes.map (fun p => (p.1, Json.str p.2)))),
      ("shadowRoot", .bool h.shadowRoot)]
     ++ optField "cssSelector" (h.cssSelector.map Json.str)
     ++ optField "pageCoordinates" (h.pageCoordinates.map coordinateSetToJson)
     ++ optField "viewportCoordinates" (h.viewportCoordinates.map coordinateSetToJson)
     ++ optField "viewportInfo" (h.viewportInfo.map viewportInfoToJson))

/-- Decode an optional field: a missing key decodes to `none`. -/
def optFieldFromJson (fs : List (String × Json)) (key : String)
    (dec : Json → Option α) : Option (Option α) :=
  match jGet fs key with
  | none => some none
  | some j => (dec j).map some

/-- Field-for-field JSON decoding of a `DOMHistoryElement`. -/
def historyElementFromJson (j : Json) : Option DOMHistoryElement :=
  match j with
  | .obj fs => do
    let tagName ← jGet fs "tagName" >>= asStr
    let xpath ← jGet fs "xpath" >>= asStr
    let highlightIndex ←
      match jGet fs "highlightIndex" with
      | some .null => some none
      | some (.num n) => some (some n.toNat)
      | _ => none
    let entireParentBranchPath ←
      match jGet fs "entireParentBranchPath" with
      | some (.arr items) => strListFromJson items
      | _ => none
    let attributes ←
      match jGet fs "attributes" with
      | some (.obj afs) => attrsFromJson afs
      | _ => none
    let shadowRoot ← jGet fs "shadowRoot" >>= asBool
    let cssSelector ← optFieldFromJson fs "cssSelector" asStr
    let pageCoordinates ← optFieldFromJson fs "pageCoordinates" coordinateSetFromJson
    let viewportCoordinates ← optFieldFromJson fs "viewportCoordinates" coordinateSetFromJson
    let viewportInfo ← optFieldFromJson fs "viewportInfo" viewportInfoFromJson
    pure
      { tagName := tagName
        xpath := xpath
        highlightIndex := highlightIndex
        entireParentBranchPath := entireParentBranchPath
        attributes := attributes
        shadowRoot := shadowRoot
        cssSelector := cssSelector
        pageCoordinates := pageCoordinates
        viewportCoordinates := viewportCoordinates
        viewportInfo := viewportInfo }
  | _ => none

/-! ## Spec-side reference definitions

These formalize the spec's own wording, to be compared with the embedded
source functions. -/

/-- Pre-order depth-first enumeration of the element-node ids reachable from
`id` through realized children (text nodes are skipped), the traversal order
the spec ascribes to `findInTree`. -/
def preorderElems (nm : NodeMap) : Nat → String → List String
  | 0, _ => []
  | fuel + 1, id =>
    match lookupNode nm id with
    | some (.element _ cs _) => id :: (cs.map (preorderElems nm fuel)).flatten
    | _ => []

/-- The spec's match test for a lookup candidate: the node carries a defined
highlight index and its three hash components equal the history record's. -/
def specMatches (hf : Nat) (nm : NodeMap) (h : DOMHistoryElement) (id : String) : Bool :=
  (highlightIndexOf nm id).isSome &&
    HistoryTreeProcessor.hashesEqual (HistoryTreeProcessor.hashDomElement hf nm id)
      (HistoryTreeProcessor.hashDomHistoryElement h)

/-- The claim's reading of the stored branch path: "the ordered list of tag
names from the root down to the element" — every ancestor including the
parentless root, then the element itself. -/
def specRootDownPath (nm : NodeMap) : Nat → String → List String
  | 0, _ => []
  | fuel + 1, id =>
    match lookupNode nm id with
    | some (.element d _ (some p)) => specRootDownPath nm fuel p ++ [d.tagName]
    | some (.element d _ none) => [d.tagName]
    | _ => []

/-- The path the code actually stores, written directly in top-down order:
the tag names of the element and of its ancestors that themselves have a
parent — the parentless root is excluded, the element itself included. -/
def specBelowRootPath (nm : NodeMap) : Nat → String → List String
  | 0, _ => []
  | fuel + 1, id =>
    match lookupNode nm id with
    | some (.element d _ (some p)) => specBelowRootPath nm fuel p ++ [d.tagName]
    | _ => []

/-- The spec's attribute hash input: the concatenation, in iteration order,
of `key=value` for every pair with no separator. -/
def specAttrConcat : List (String × String) → String
  | [] => ""
  | (k, v) :: rest => k ++ "=" ++ v ++ specAttrConcat rest

/-- The composite fingerprint string of the spec: the three component hex
digests joined with `-`. -/
def specComposite (hf : Nat) (nm : NodeMap) (id : String) : String :=
  (HistoryTreeProcessor.hashDomElement hf nm id).branchPathHash ++ "-" ++
  (HistoryTreeProcessor.hashDomElement hf nm id).attributesHash ++ "-" ++
  (HistoryTreeProcessor.hashDomElement hf nm id).xpathHash

/-- All ids that appear in some node's realized children list. -/
def allChildIds (nm : NodeMap) : List String :=
  (nm.map (fun e => nodeChildren e.2)).flatten

/-- All ids that appear in some raw entry's declared child-id list. -/
def rawChildIds : RawNode → List String
  | .text _ _ => []
  | .element d => d.children

def allRawChildIds (entries : List (String × RawNode)) : List String :=
  (entries.map (fun e => rawChildIds e.2)).flatten

/-- Walk the parent back-references upward from `id`, counting steps;
`none` marks fuel exhaustion (a cyclic parent chain when the fuel exceeds the
arena size).  An unresolved id or a parentless node ends the walk. -/
def walkUp (nm : NodeMap) : Nat → String → Option Nat
  | 0, _ => none
  | fuel + 1, id =>
    match lookupNode nm id with
    | some n =>
      match nodeParent n with
      | some p => (walkUp nm fuel p).map (· + 1)
      | none => some 0
    | none => some 0

/-- Acyclicity of the parent-linked structure: from every id the upward walk
terminates within the arena size. -/
def AcyclicUp (nm : NodeMap) : Prop :=
  ∀ id, (walkUp nm (nm.length + 1) id).isSome

/-- Parent/child consistency: every id in a node's realized children list
resolves and its parent back-reference points at exactly that node. -/
def ChildrenConsistent (nm : NodeMap) : Prop :=
  ∀ pid n, lookupNode nm pid = some n → ∀ c ∈ nodeChildren n, parentOf nm c = some pid

/-- Index of a key in the arena (`nm.length` when absent). -/
def keyIdx (nm : NodeMap) (k : String) : Nat :=
  (nm.map Prod.fst).findIdx (fun x => x == k)

/-- Every parent back-reference points at a key inserted strictly later in
the arena.  This ranking is the form in which acyclicity is established. -/
def ParentLater (nm : NodeMap) : Prop :=
  ∀ c n p, lookupNode nm c = some n → nodeParent n = some p →
    keyIdx nm c < keyIdx nm p ∧ keyIdx nm p < nm.length

/-! ## Concrete fixtures

The spec's concrete scenario: a `body` root (id "0") declaring one child,
an interactive `button` (id "1", `{id:"go"}`, highlight index 0). -/

def bodyRaw : RawNode :=
  .element
    { tagName := "body", xpath := "/html/body", attributes := [],
      children := ["1"], isVisible := true, isInteractive := false,
      isTopElement := false, isInViewport := false, highlightIndex := none,
      shadowRoot := false, viewport := none }

def buttonRaw : RawNode :=
  .element
    { tagName := "button", xpath := "/html/body/button",
      attributes := [("id", "go")], children := [], isVisible := true,
      isInteractive := true, isTopElement := false, isInViewport := true,
      highlightIndex := some 0, shadowRoot := false, viewport := none }

/-- The scenario table in its JavaScript iteration order: `Object.entries`
yields integer-like keys in ascending order, so the `body` entry ("0") comes
before the `button` entry ("1"). -/
def entriesParentFirst : List (String × RawNode) :=
  [("0", bodyRaw), ("1", buttonRaw)]

/-- The same table with the child's entry first — the order in which the
snapshot provider emits records (children receive ids before parents). -/
def entriesChildFirst : List (String × RawNode) :=
  [("1", buttonRaw), ("0", bodyRaw)]

/-- The arena built from the parent-first entry order. -/
def nmParentFirst : NodeMap := constructedNodeMap entriesParentFirst

/-- The arena built from the child-first entry order. -/
def nmChildFirst : NodeMap := constructedNodeMap entriesChildFirst

/-- A single self-referencing element record: its child list names its own
id. -/
def selfLoopRaw : RawNode :=
  .element
    { tagName := "div", xpath := "/html/div", attributes := [],
      children := ["0"], isVisible := true, isInteractive := false,
      isTopElement := false, isInViewport := false, highlightIndex := none,
      shadowRoot := false, viewport := none }

def entriesSelfLoop : List (String × RawNode) := [("0", selfLoopRaw)]

def nmSelfLoop : NodeMap := constructedNodeMap entriesSelfLoop

/-- A single interactive root element with no children (used to contrast the
collector, which never returns the root, with the history lookup, which
does test the root). -/
def soloInteractiveRaw : RawNode :=
  .element
    { tagName := "button", xpath := "/html/body/button", attributes := [("id", "solo")],
      children := [], isVisible := true, isInteractive := true,
      isTopElement := true, isInViewport := true, highlightIndex := some 0,
      shadowRoot := false, viewport := none }

def entriesSolo : List (String × RawNode) := [("0", soloInteractiveRaw)]

def nmSolo : NodeMap := constructedNodeMap entriesSolo

/-- Two distinct attribute pairs whose `key=value` pieces are powers of a
common word, so that both orders concatenate to the same string. -/
def attrsEqSignFirst : List (String × String) := [("a", "b"), ("a=ba", "b")]

def attrsEqSignSecond : List (String × String) := [("a=ba", "b"), ("a", "b")]

/-- First-match lookup in the raw snapshot table. -/
def rawLookup : List (String × RawNode) → String → Option RawNode
  | [], _ => none
  | (k, r) :: rest, id => if k == id then some r else rawLookup rest id

/-- The id `id` resolves to a text node. -/
def isTextAt (nm : NodeMap) (id : String) : Prop :=
  ∃ d p, lookupNode nm id = some (.text d p)

/-- The id `id` resolves to an element node. -/
def isElementAt (nm : NodeMap) (id : String) : Prop :=
  ∃ d cs p, lookupNode nm id = some (.element d cs p)

/-- A raw table containing a text record, used as a malformed-root
fixture. -/
def entriesWithText : List (String × RawNode) :=
  [("t", .text "hello" true), ("0", bodyRaw), ("1", buttonRaw)]

/-- Restriction of a raw record's declared child list to a key set; the
identity on text records. -/
def pruneRaw (ks : List String) : RawNode → RawNode
  | .text t v => .text t v
  | .element d =>
    .element { d with children := d.children.filter (fun c => decide (c ∈ ks)) }

/-- Drop from every declared child list the ids that are absent from the raw
table. -/
def pruneDangling (entries : List (String × RawNode)) : List (String × RawNode) :=
  entries.map (fun e => (e.1, pruneRaw (entries.map Prod.fst) e.2))

/-- The scenario's body record with one dangling child reference added. -/
def bodyGhostData : RawElementData :=
  { tagName := "body", xpath := "/html/body", attributes := [],
    children := ["1", "ghost"], isVisible := true, isInteractive := false,
    isTopElement := false, isInViewport := false, highlightIndex := none,
    shadowRoot := false, viewport := none }

def entriesDangling : List (String × RawNode) :=
  [("1", buttonRaw), ("0", .element bodyGhostData)]

/-- The node with its parent back-reference set to `p`. -/
def withParent : DOMBaseNode → String → DOMBaseNode
  | .text d _, p => .text d (some p)
  | .element d cs _, p => .element d cs (some p)

/-! ## General lemmas about the arena primitives -/

example : SHA256.sha256Hex [] =
    "e3b0c44298fc1c149afbf4c8996fb92427ae41e4649b934ca495991b7852b855" := by decide

example : hashString "abc" =
    "ba7816bf8f01cfea414140de5dae2223b00361a396177a9cb410ff61f20015ad" := by decide

theorem lookup_mem {nm : NodeMap} {k : String} {n : DOMBaseNode}
    (h : lookupNode nm k = some n) : (k, n) ∈ nm := by
  induction nm with
  | nil => simp [lookupNode] at h
  | cons e rest ih =>
    obtain ⟨a, b⟩ := e
    rw [lookupNode.eq_def] at h
    by_cases hk : a == k
    · simp only [hk, if_true] at h
      cases h
      have hak : a = k := beq_iff_eq.mp hk
      subst hak
      exact List.mem_cons_self _ _
    · simp only [hk] at h
      exact List.mem_cons_of_mem _ (ih (by simpa using h))

theorem mem_allChildIds_of {nm : NodeMap} {id c : String} {n : DOMBaseNode}
    (h : lookupNode nm id = some n) (hc : c ∈ nodeChildren n) :
    c ∈ allChildIds nm := by
  exact List.mem_flatten.mpr
    ⟨nodeChildren n, List.mem_map.mpr ⟨(id, n), lookup_mem h, rfl⟩, hc⟩

theorem join_cons_str (s : String) (l : List String) :
    String.join (s :: l) = s ++ String.join l := by
  rw [String.join_eq, String.join_eq]
  rfl

/-! ## Claim C1 — the concrete scenario -/

/-- C1 counterexample: running the scenario's raw table in its JavaScript
iteration order (body entry "0" before button entry "1") through
`constructDOMTree`, the forward reference from the body to the
not-yet-processed button is dropped, so — contrary to the claim — the root's
realized children do not contain the button, collecting clickable elements
yields nothing, and looking up the button's history record in the same tree
returns not-found. -/
theorem claim1_counterexample :
    ("1" ∉ childrenOf nmParentFirst "0") ∧
    ClickableElementProcessor.getClickableElements nmParentFirst 2 "0" = [] ∧
    ((HistoryTreeProcessor.convertDomElementToHistoryElement 2 nmParentFirst "1").bind
      (fun h => HistoryTreeProcessor.findHistoryElementInTree 2 2 h nmParentFirst "0")) =
      none := by
  decide

/-- C1 (amended): for the scenario's raw table processed with the button
entry before the body entry — the child-before-parent order the snapshot
provider emits — construction succeeds with a `body` root whose realized
children are exactly the button, the selector map is `{0: button}`,
collecting clickable elements from the root returns exactly the button, and
converting the button to a history record and looking it up in the same tree
returns that button. -/
theorem claim1_scenario_child_first :
    (constructDOMTree entriesChildFirst "0").isOk = true ∧
    (elementDataOf nmChildFirst "0").map (fun d => d.tagName) = some "body" ∧
    childrenOf nmChildFirst "0" = ["1"] ∧
    constructedSelectorMap entriesChildFirst = [(0, "1")] ∧
    ClickableElementProcessor.getClickableElements nmChildFirst 2 "0" = ["1"] ∧
    ((HistoryTreeProcessor.convertDomElementToHistoryElement 2 nmChildFirst "1").bind
      (fun h => HistoryTreeProcessor.findHistoryElementInTree 2 2 h nmChildFirst "0")) =
      some "1" := by
  decide

/-! ## Claim C2 — `findHistoryElementInTree` returns the first pre-order
match -/

theorem findSome?_eq_find?_flatten {α β : Type} (g : α → Option β)
    (l : α → List β) (p : β → Bool) (hg : ∀ c, g c = (l c).find? p) :
    ∀ cs : List α, cs.findSome? g = ((cs.map l).flatten).find? p := by
  intro cs
  induction cs with
  | nil => rfl
  | cons c rest ih =>
    simp only [List.findSome?, List.map_cons, List.flatten_cons, List.find?_append]
    rw [hg c, ih]
    cases (l c).find? p with
    | none => simp
    | some r => simp

theorem processNode_eq_find (hf : Nat) (target : HashedDomElement) (nm : NodeMap) :
    ∀ fuel id, HistoryTreeProcessor.processNode hf target nm fuel id =
      (preorderElems nm fuel id).find?
        (fun x => (highlightIndexOf nm x).isSome &&
          HistoryTreeProcessor.hashesEqual
            (HistoryTreeProcessor.hashDomElement hf nm x) target) := by
  intro fuel
  induction fuel with
  | zero => intro id; rfl
  | succ f ih =>
    intro id
    cases hl : lookupNode nm id with
    | none => simp [HistoryTreeProcessor.processNode, preorderElems, hl]
    | some n =>
      cases n with
      | text d p => simp [HistoryTreeProcessor.processNode, preorderElems, hl]
      | element d cs p =>
        have hhi : highlightIndexOf nm id = d.highlightIndex := by
          simp [highlightIndexOf, elementDataOf, hl]
        have hchild := findSome?_eq_find?_flatten
          (HistoryTreeProcessor.processNode hf target nm f) (preorderElems nm f)
          (fun x => (highlightIndexOf nm x).isSome &&
            HistoryTreeProcessor.hashesEqual
              (HistoryTreeProcessor.hashDomElement hf nm x) target) ih cs
        by_cases hc : (d.highlightIndex.isSome &&
            HistoryTreeProcessor.hashesEqual
              (HistoryTreeProcessor.hashDomElement hf nm id) target) = true
        · simp only [HistoryTreeProcessor.processNode, preorderElems, hl]
          rw [if_pos hc, List.find?_cons_of_pos _ (by rw [← hhi] at hc; exact hc)]
        · simp only [HistoryTreeProcessor.processNode, preorderElems, hl]
          rw [if_neg hc, List.find?_cons_of_neg _ (by rw [← hhi] at hc; exact hc)]
          exact hchild

/-- C2: `findHistoryElementInTree` fingerprints the history record once and
returns exactly the first node, in pre-order depth-first order over the
tree, that carries a defined highlight index and whose three hash components
equal the record's; in particular nodes without a highlight index are never
returned, and when no such node exists the result is the explicit not-found
value `none`. -/
theorem claim2_find_first_preorder_match :
    ∀ (hf fuel : Nat) (h : DOMHistoryElement) (nm : NodeMap) (tree : String),
      HistoryTreeProcessor.findHistoryElementInTree hf fuel h nm tree =
        (preorderElems nm fuel tree).find? (specMatches hf nm h) := by
  intro hf fuel h nm tree
  exact processNode_eq_find hf (HistoryTreeProcessor.hashDomHistoryElement h) nm fuel tree

/-! ## Claim C6 — the stored branch path -/

/-- C6 counterexample: in the two-node scenario tree, the stored parent
branch path of the button is `["button"]` — the parentless `body` root's tag
name is not part of it — so it differs from "the ordered list of tag names
from the root down to the element" (`["body", "button"]`), and the branch
path hash differs from the hash of that root-down list joined with `/`. -/
theorem claim6_counterexample :
    HistoryTreeProcessor.getParentBranchPath 2 nmChildFirst "1" = ["button"] ∧
    specRootDownPath nmChildFirst 2 "1" = ["body", "button"] ∧
    HistoryTreeProcessor.parentBranchPathHash
        (HistoryTreeProcessor.getParentBranchPath 2 nmChildFirst "1") ≠
      hashString (String.intercalate "/" (specRootDownPath nmChildFirst 2 "1")) := by
  decide

/-- C6 (amended): `branchPathHash(e)` is the hash of the `/`-joined list of
tag names obtained by walking parent links from `e` upward, which in
top-down order is the chain from the topmost ancestor below the parentless
root down to `e` itself: the root's tag name is excluded and the element's
own tag name is included. -/
theorem claim6_branch_path_below_root :
    ∀ (nm : NodeMap) (fuel : Nat) (id : String),
      HistoryTreeProcessor.getParentBranchPath fuel nm id =
        specBelowRootPath nm fuel id ∧
      HistoryTreeProcessor.parentBranchPathHash
          (HistoryTreeProcessor.getParentBranchPath fuel nm id) =
        hashString (String.intercalate "/" (specBelowRootPath nm fuel id)) := by
  intro nm fuel
  have main : ∀ fuel id, HistoryTreeProcessor.getParentBranchPath fuel nm id =
      specBelowRootPath nm fuel id := by
    intro fuel
    induction fuel with
    | zero => intro id; rfl
    | succ f ih =>
      intro id
      rw [HistoryTreeProcessor.getParentBranchPath, HistoryTreeProcessor.collectParents,
        specBelowRootPath]
      cases hl : lookupNode nm id with
      | none => rfl
      | some n =>
        cases n with
        | text d p => rfl
        | element d cs p =>
          cases p with
          | none => rfl
          | some q =>
            rw [List.reverse_cons]
            rw [← HistoryTreeProcessor.getParentBranchPath, ih q]
  intro id
  exact ⟨main fuel id, by rw [main fuel id]; rfl⟩

/-! ## Claim C7 — order-dependent attribute hashing -/

/-- C7 counterexample: the attribute maps `{a: "b", "a=ba": "b"}` and
`{"a=ba": "b", a: "b"}` hold the same two distinct key-value pairs in
different orders, yet their `key=value` concatenations are the identical
string `a=ba=ba=b`, so their attribute hashes are equal — the claimed
universal order-sensitivity fails for keys containing `=`. -/
theorem claim7_counterexample :
    attrsEqSignFirst ≠ attrsEqSignSecond ∧
    attrsEqSignFirst.Perm attrsEqSignSecond ∧
    (("a", "b") : String × String) ≠ ("a=ba", "b") ∧
    specAttrConcat attrsEqSignFirst = specAttrConcat attrsEqSignSecond ∧
    HistoryTreeProcessor.attributesHash attrsEqSignFirst =
      HistoryTreeProcessor.attributesHash attrsEqSignSecond := by
  exact ⟨by decide, List.Perm.swap _ _ _, by decide, by decide, by decide⟩

/-- C7 (amended): `attributesHash` is the hash of the concatenation, in the
attribute map's existing iteration order, of `key=value` for every pair with
no separator; reordering the pairs changes the hash whenever it changes that
concatenation — as it does for `{a:1, b:2}` versus `{b:2, a:1}` — but not
universally, since keys containing `=` can make the concatenations of two
different orders coincide. -/
theorem claim7_attributes_hash_order :
    (∀ attributes : List (String × String),
      HistoryTreeProcessor.attributesHash attributes =
        hashString (specAttrConcat attributes)) ∧
    HistoryTreeProcessor.attributesHash [("a", "1"), ("b", "2")] ≠
      HistoryTreeProcessor.attributesHash [("b", "2"), ("a", "1")] := by
  constructor
  · intro attributes
    unfold HistoryTreeProcessor.attributesHash
    congr 1
    induction attributes with
    | nil => rfl
    | cons p rest ih =>
      rw [List.map_cons, join_cons_str, specAttrConcat, ih]

  · decide

/-! ## Claim C8 — the clickable-element hash set -/

theorem mem_dedupAux {l seen : List String} {x : String} :
    x ∈ ClickableElementProcessor.dedupAux l seen ↔ x ∈ l ∧ x ∉ seen := by
  induction l generalizing seen with
  | nil => simp [ClickableElementProcessor.dedupAux]
  | cons y ys ih =>
    rw [ClickableElementProcessor.dedupAux]
    by_cases hy : y ∈ seen
    · simp only [hy, if_true, ih]
      constructor
      · rintro ⟨hx, hns⟩
        exact ⟨List.mem_cons_of_mem _ hx, hns⟩
      · rintro ⟨hx, hns⟩
        rcases List.mem_cons.mp hx with rfl | hx
        · exact absurd hy hns
        · exact ⟨hx, hns⟩
    · simp only [hy, if_false, List.mem_cons, ih, List.mem_cons]
      constructor
      · rintro (rfl | ⟨hx, hns⟩)
        · exact ⟨Or.inl rfl, hy⟩
        · simp at hns
          exact ⟨Or.inr hx, hns.2⟩
      · rintro ⟨rfl | hx, hns⟩
        · exact Or.inl rfl
        · by_cases hxy : x = y
          · exact Or.inl hxy
          · exact Or.inr ⟨hx, by simp [hxy, hns]⟩

theorem mem_dedupFirst {l : List String} {x : String} :
    x ∈ ClickableElementProcessor.dedupFirst l ↔ x ∈ l := by
  unfold ClickableElementProcessor.dedupFirst
  rw [mem_dedupAux]
  simp

set_option maxRecDepth 8192 in
set_option maxHeartbeats 1000000 in
/-- C8 counterexample: for the concrete scenario tree, the hash set contains
the SHA-256 digest of the button's composite string, not the composite
string `branchPathHash-attributesHash-xpathHash` itself, so the set is not
the claimed set of composite strings. -/
theorem claim8_counterexample :
    ClickableElementProcessor.getClickableElementsHashes 2 2 nmChildFirst "0" ≠
      [specComposite 2 nmChildFirst "1"] ∧
    specComposite 2 nmChildFirst "1" ∉
      ClickableElementProcessor.getClickableElementsHashes 2 2 nmChildFirst "0" := by
  decide

/-- C8 (amended): the hash set of a tree consists of exactly the SHA-256
digests of the composite strings `branchPathHash-attributesHash-xpathHash`
(the three hex digests joined with `-`), one per element returned by
collecting the clickable elements of the root. -/
theorem claim8_hash_set_characterization :
    ∀ (hf fuel : Nat) (nm : NodeMap) (root : String) (s : String),
      s ∈ ClickableElementProcessor.getClickableElementsHashes hf fuel nm root ↔
        ∃ id ∈ ClickableElementProcessor.getClickableElements nm fuel root,
          s = hashString (specComposite hf nm id) := by
  intro hf fuel nm root s
  have hh : ∀ id, ClickableElementProcessor.hashDomElement hf nm id =
      hashString (specComposite hf nm id) := by
    intro id
    simp only [ClickableElementProcessor.hashDomElement, specComposite,
      HistoryTreeProcessor.hashDomElement]
  unfold ClickableElementProcessor.getClickableElementsHashes
  rw [mem_dedupFirst, List.mem_map]
  constructor
  · rintro ⟨id, hid, he⟩
    refine ⟨id, hid, ?_⟩
    rw [← he]
    exact hh id
  · rintro ⟨id, hid, he⟩
    refine ⟨id, hid, ?_⟩
    rw [he]
    exact hh id

/-- C8 witness: the characterization applied to the concrete scenario tree
and the button's composite digest. -/
theorem claim8_hash_set_characterization_witness :
    hashString (specComposite 2 nmChildFirst "1") ∈
        ClickableElementProcessor.getClickableElementsHashes 2 2 nmChildFirst "0" ↔
      ∃ id ∈ ClickableElementProcessor.getClickableElements nmChildFirst 2 "0",
        hashString (specComposite 2 nmChildFirst "1") =
          hashString (specComposite 2 nmChildFirst id) :=
  claim8_hash_set_characterization 2 2 nmChildFirst "0"
    (hashString (specComposite 2 nmChildFirst "1"))

/-! ## Claim C10 — the collector never returns the root -/

theorem collect_subset_allChildIds (nm : NodeMap) :
    ∀ fuel id x, x ∈ ClickableElementProcessor.getClickableElements nm fuel id →
      x ∈ allChildIds nm := by
  intro fuel
  induction fuel with
  | zero =>
    intro id x hx
    simp [ClickableElementProcessor.getClickableElements] at hx
  | succ f ih =>
    intro id x hx
    rw [ClickableElementProcessor.getClickableElements] at hx
    cases hl : lookupNode nm id with
    | none => rw [hl] at hx; simp at hx
    | some n =>
      cases n with
      | text d p => rw [hl] at hx; simp at hx
      | element d cs p =>
        rw [hl] at hx
        rcases List.mem_flatten.mp hx with ⟨l, hlmem, hxl⟩
        rcases List.mem_map.mp hlmem with ⟨c, hc, rfl⟩
        cases hlc : lookupNode nm c with
        | none => rw [hlc] at hxl; simp at hxl
        | some m =>
          cases m with
          | text dt pt => rw [hlc] at hxl; simp at hxl
          | element dc csc pc =>
            rw [hlc] at hxl
            rcases List.mem_append.mp hxl with hx1 | hx2
            · have hxc : x = c := by
                by_cases hhi : dc.highlightIndex.isSome
                · simp [hhi] at hx1; exact hx1
                · simp [hhi] at hx1
              subst hxc
              exact mem_allChildIds_of hl (by simpa [nodeChildren] using hc)
            · exact ih c x hx2

set_option maxRecDepth 8192 in
set_option maxHeartbeats 1000000 in
/-- C10: the clickable-element collector only ever returns ids that occur in
some node's realized children list, so the traversal root itself — which is
never inspected — is not in the result whenever no node lists it as a child,
even when the root carries a defined highlight index; by contrast, on a
one-node tree whose interactive root carries highlight index 0, the
collector returns nothing while `findHistoryElementInTree` does test and
return the root itself. -/
theorem claim10_collector_excludes_root :
    (∀ (nm : NodeMap) (fuel : Nat) (root : String), root ∉ allChildIds nm →
      root ∉ ClickableElementProcessor.getClickableElements nm fuel root) ∧
    highlightIndexOf nmSolo "0" = some 0 ∧
    ClickableElementProcessor.getClickableElements nmSolo 2 "0" = [] ∧
    ((HistoryTreeProcessor.convertDomElementToHistoryElement 2 nmSolo "0").bind
      (fun h => HistoryTreeProcessor.findHistoryElementInTree 2 2 h nmSolo "0")) =
      some "0" := by
  refine ⟨?_, by decide, by decide, by decide⟩
  intro nm fuel root hroot hmem
  exact hroot (collect_subset_allChildIds nm fuel root root hmem)

/-- C10 witness: the universal part applied to the concrete one-node tree,
whose interactive root is listed in no children list. -/
theorem claim10_collector_excludes_root_witness :
    "0" ∉ ClickableElementProcessor.getClickableElements nmSolo 2 "0" :=
  claim10_collector_excludes_root.1 nmSolo 2 "0" (by decide)

/-! ## Arena update lemmas (shared by C4, C5 and C9) -/


theorem lookup_setNode_self (nm : NodeMap) (id : String) (n : DOMBaseNode) :
    lookupNode (setNode nm id n) id = some n := by
  induction nm with
  | nil => simp [setNode, lookupNode]
  | cons e rest ih =>
    by_cases hk : e.1 = id
    · simp [setNode, lookupNode, hk]
    · simp [setNode, lookupNode, hk, ih]

theorem lookup_setNode_ne (nm : NodeMap) {k id : String} (n : DOMBaseNode)
    (h : k ≠ id) : lookupNode (setNode nm id n) k = lookupNode nm k := by
  have hs : id ≠ k := fun hh => h hh.symm
  induction nm with
  | nil => simp [setNode, lookupNode, hs]
  | cons e rest ih =>
    by_cases hk : e.1 = id
    · subst hk
      simp [setNode, lookupNode, hs]
    · simp [setNode, lookupNode, hk, ih]

theorem lookup_eq_none_iff (nm : NodeMap) (k : String) :
    lookupNode nm k = none ↔ k ∉ nm.map Prod.fst := by
  induction nm with
  | nil => simp [lookupNode]
  | cons e rest ih =>
    by_cases hk : e.1 = k
    · simp [lookupNode, hk]
    · have hs : ¬ k = e.1 := fun hh => hk hh.symm
      simp [lookupNode, hk, ih, hs]

theorem rawLookup_eq_none_iff (entries : List (String × RawNode)) (k : String) :
    rawLookup entries k = none ↔ k ∉ entries.map Prod.fst := by
  induction entries with
  | nil => simp [rawLookup]
  | cons e rest ih =>
    by_cases hk : e.1 = k
    · simp [rawLookup, hk]
    · have hs : ¬ k = e.1 := fun hh => hk hh.symm
      simp [rawLookup, hk, ih, hs]

theorem keys_setNode_mem (nm : NodeMap) {id : String} (n : DOMBaseNode)
    (h : id ∈ nm.map Prod.fst) :
    (setNode nm id n).map Prod.fst = nm.map Prod.fst := by
  induction nm with
  | nil => simp at h
  | cons e rest ih =>
    by_cases hk : e.1 = id
    · simp [setNode, hk]
    · have h2 : id ∈ rest.map Prod.fst := by
        rw [List.map_cons] at h
        rcases List.mem_cons.mp h with hh | hh
        · exact absurd hh.symm hk
        · exact hh
      simp [setNode, hk, ih h2]

theorem keys_setNode_not_mem (nm : NodeMap) {id : String} (n : DOMBaseNode)
    (h : id ∉ nm.map Prod.fst) :
    setNode nm id n = nm ++ [(id, n)] := by
  induction nm with
  | nil => simp [setNode]
  | cons e rest ih =>
    by_cases hk : e.1 = id
    · exact absurd (by simp [hk]) h
    · simp [setNode, hk, ih (fun hh => h (by simp [hh]))]

theorem keys_setParentOf (nm : NodeMap) (cid pid : String) :
    (setParentOf nm cid pid).map Prod.fst = nm.map Prod.fst := by
  unfold setParentOf
  cases hl : lookupNode nm cid with
  | none => rfl
  | some n =>
    have hmem : cid ∈ nm.map Prod.fst := by
      by_contra hc
      rw [← lookup_eq_none_iff] at hc
      rw [hc] at hl
      exact Option.noConfusion hl
    cases n with
    | text d p => exact keys_setNode_mem nm _ hmem
    | element d cs p => exact keys_setNode_mem nm _ hmem

theorem keys_pushChild (nm : NodeMap) (pid cid : String) :
    (pushChild nm pid cid).map Prod.fst = nm.map Prod.fst := by
  unfold pushChild
  cases hl : lookupNode nm pid with
  | none => rfl
  | some n =>
    cases n with
    | text d p => rfl
    | element d cs p =>
      have hmem : pid ∈ nm.map Prod.fst := by
        by_contra hc
        rw [← lookup_eq_none_iff] at hc
        rw [hc] at hl
        exact Option.noConfusion hl
      exact keys_setNode_mem nm _ hmem

theorem keys_attachChildren (pid : String) :
    ∀ (cs : List String) (nm : NodeMap),
      (attachChildren pid nm cs).map Prod.fst = nm.map Prod.fst := by
  intro cs
  induction cs with
  | nil => intro nm; rfl
  | cons c rest ih =>
    intro nm
    rw [attachChildren]
    by_cases hc : (lookupNode nm c).isSome
    · rw [if_pos hc, ih, keys_pushChild, keys_setParentOf]
    · rw [if_neg hc, ih]

theorem isTextAt_setParentOf {nm : NodeMap} {r : String} (cid pid : String)
    (h : isTextAt nm r) : isTextAt (setParentOf nm cid pid) r := by
  obtain ⟨d, p, hl⟩ := h
  by_cases hc : cid = r
  · subst hc
    unfold setParentOf
    rw [hl]
    exact ⟨d, some pid, lookup_setNode_self nm cid _⟩
  · unfold setParentOf
    cases hl2 : lookupNode nm cid with
    | none => exact ⟨d, p, hl⟩
    | some n =>
      cases n with
      | text d2 p2 =>
        exact ⟨d, p, by rw [lookup_setNode_ne nm _ (fun hh => hc hh.symm)]; exact hl⟩
      | element d2 cs2 p2 =>
        exact ⟨d, p, by rw [lookup_setNode_ne nm _ (fun hh => hc hh.symm)]; exact hl⟩

theorem isTextAt_pushChild {nm : NodeMap} {r : String} (pid cid : String)
    (h : isTextAt nm r) : isTextAt (pushChild nm pid cid) r := by
  obtain ⟨d, p, hl⟩ := h
  unfold pushChild
  cases hl2 : lookupNode nm pid with
  | none => exact ⟨d, p, hl⟩
  | some n =>
    cases n with
    | text d2 p2 => exact ⟨d, p, hl⟩
    | element d2 cs2 p2 =>
      by_cases hc : pid = r
      · subst hc
        rw [hl] at hl2
        exact absurd hl2 (by simp)
      · exact ⟨d, p, by rw [lookup_setNode_ne nm _ (fun hh => hc hh.symm)]; exact hl⟩

theorem isTextAt_attachChildren {r : String} (pid : String) :
    ∀ (cs : List String) (nm : NodeMap), isTextAt nm r →
      isTextAt (attachChildren pid nm cs) r := by
  intro cs
  induction cs with
  | nil => intro nm h; exact h
  | cons c rest ih =>
    intro nm h
    rw [attachChildren]
    by_cases hc : (lookupNode nm c).isSome
    · rw [if_pos hc]
      exact ih _ (isTextAt_pushChild pid c (isTextAt_setParentOf c pid h))
    · rw [if_neg hc]
      exact ih _ h

theorem isElementAt_setParentOf {nm : NodeMap} {r : String} (cid pid : String)
    (h : isElementAt nm r) : isElementAt (setParentOf nm cid pid) r := by
  obtain ⟨d, cs, p, hl⟩ := h
  by_cases hc : cid = r
  · subst hc
    unfold setParentOf
    rw [hl]
    exact ⟨d, cs, some pid, lookup_setNode_self nm cid _⟩
  · unfold setParentOf
    cases hl2 : lookupNode nm cid with
    | none => exact ⟨d, cs, p, hl⟩
    | some n =>
      cases n with
      | text d2 p2 =>
        exact ⟨d, cs, p, by rw [lookup_setNode_ne nm _ (fun hh => hc hh.symm)]; exact hl⟩
      | element d2 cs2 p2 =>
        exact ⟨d, cs, p, by rw [lookup_setNode_ne nm _ (fun hh => hc hh.symm)]; exact hl⟩

theorem isElementAt_pushChild {nm : NodeMap} {r : String} (pid cid : String)
    (h : isElementAt nm r) : isElementAt (pushChild nm pid cid) r := by
  obtain ⟨d, cs, p, hl⟩ := h
  unfold pushChild
  cases hl2 : lookupNode nm pid with
  | none => exact ⟨d, cs, p, hl⟩
  | some n =>
    cases n with
    | text d2 p2 => exact ⟨d, cs, p, hl⟩
    | element d2 cs2 p2 =>
      by_cases hc : pid = r
      · subst hc
        exact ⟨d2, cs2 ++ [cid], p2, lookup_setNode_self nm pid _⟩
      · exact ⟨d, cs, p, by rw [lookup_setNode_ne nm _ (fun hh => hc hh.symm)]; exact hl⟩

theorem isElementAt_attachChildren {r : String} (pid : String) :
    ∀ (cs : List String) (nm : NodeMap), isElementAt nm r →
      isElementAt (attachChildren pid nm cs) r := by
  intro cs
  induction cs with
  | nil => intro nm h; exact h
  | cons c rest ih =>
    intro nm h
    rw [attachChildren]
    by_cases hc : (lookupNode nm c).isSome
    · rw [if_pos hc]
      exact ih _ (isElementAt_pushChild pid c (isElementAt_setParentOf c pid h))
    · rw [if_neg hc]
      exact ih _ h

theorem lookup_none_attachChildren {r : String} (pid : String) :
    ∀ (cs : List String) (nm : NodeMap), lookupNode nm r = none →
      lookupNode (attachChildren pid nm cs) r = none := by
  intro cs nm h
  rw [lookup_eq_none_iff] at h ⊢
  rw [keys_attachChildren]
  exact h

/-! ## Claim C4 — malformed roots fail construction -/

theorem proc_lookup_none :
    ∀ (rest : List (String × RawNode)) (nm : NodeMap) (sm : SelectorMap) (r : String),
      lookupNode nm r = none → r ∉ rest.map Prod.fst →
      lookupNode (processEntries rest nm sm).1 r = none := by
  intro rest
  induction rest with
  | nil => intro nm sm r h _; exact h
  | cons e rest ih =>
    intro nm sm r h hnot
    obtain ⟨id, raw⟩ := e
    have hne : id ≠ r := by
      intro hh
      exact hnot (by simp [hh])
    have hnot2 : r ∉ rest.map Prod.fst := fun hh => hnot (by simp [hh])
    rw [processEntries]
    cases hraw : parseNode raw with
    | mk node childrenIds =>
      simp only []
      cases node with
      | text d p =>
        exact ih _ _ r (by rw [lookup_setNode_ne nm _ (fun hh => hne hh.symm)]; exact h) hnot2
      | element d cs p =>
        refine ih _ _ r ?_ hnot2
        apply lookup_none_attachChildren
        rw [lookup_setNode_ne nm _ (fun hh => hne hh.symm)]
        exact h

theorem proc_root_text :
    ∀ (rest : List (String × RawNode)) (nm : NodeMap) (sm : SelectorMap) (r : String),
      (rest.map Prod.fst).Nodup →
      ((isTextAt nm r ∧ r ∉ rest.map Prod.fst) ∨
        (lookupNode nm r = none ∧ ∃ t v, rawLookup rest r = some (.text t v))) →
      isTextAt (processEntries rest nm sm).1 r := by
  intro rest
  induction rest with
  | nil =>
    intro nm sm r _ hcase
    rcases hcase with ⟨h, _⟩ | ⟨_, t, v, hraw⟩
    · exact h
    · simp [rawLookup] at hraw
  | cons e rest ih =>
    intro nm sm r hnd hcase
    obtain ⟨id, raw⟩ := e
    rw [processEntries]
    rcases hcase with ⟨h, hnot⟩ | ⟨hnone, t, v, hraw⟩
    · have hne : id ≠ r := fun hh => hnot (by simp [hh])
      have hnot2 : r ∉ rest.map Prod.fst := fun hh => hnot (by simp [hh])
      have h1 : isTextAt (setNode nm id (parseNode raw).1) r :=
        ⟨h.choose, h.choose_spec.choose, by
          rw [lookup_setNode_ne nm _ (fun hh => hne hh.symm)]
          exact h.choose_spec.choose_spec⟩
      cases hp : parseNode raw with
      | mk node childrenIds =>
        simp only []
        cases node with
        | text d p =>
          refine ih _ _ r (by simpa using hnd.of_cons) (Or.inl ⟨?_, hnot2⟩)
          rw [hp] at h1
          exact h1
        | element d cs p =>
          refine ih _ _ r (by simpa using hnd.of_cons) (Or.inl ⟨?_, hnot2⟩)
          apply isTextAt_attachChildren
          rw [hp] at h1
          exact h1
    · by_cases hid : id = r
      · subst hid
        rw [rawLookup.eq_def] at hraw
        simp only [beq_self_eq_true, if_true] at hraw
        cases hraw
        have hnotrest : id ∉ rest.map Prod.fst := by
          have := hnd
          simp only [List.map_cons, List.nodup_cons] at this
          exact this.1
        cases hp : parseNode (RawNode.text t v) with
        | mk node childrenIds =>
          have hnode : node = .text ⟨t, v⟩ none := by
            simp [parseNode] at hp
            exact hp.1.symm
          subst hnode
          simp only []
          refine ih _ _ id (by simpa using hnd.of_cons)
            (Or.inl ⟨⟨⟨t, v⟩, none, lookup_setNode_self nm id _⟩, hnotrest⟩)
      · have hraw2 : rawLookup rest r = some (.text t v) := by
          rw [rawLookup.eq_def] at hraw
          have : (id == r) = false := by simp [hid]
          simpa [this] using hraw
        cases hp : parseNode raw with
        | mk node childrenIds =>
          simp only []
          have hn1 : lookupNode (setNode nm id node) r = none := by
            rw [lookup_setNode_ne nm _ (fun hh => hid hh.symm)]
            exact hnone
          cases node with
          | text d p =>
            exact ih _ _ r (by simpa using hnd.of_cons) (Or.inr ⟨hn1, t, v, hraw2⟩)
          | element d cs p =>
            exact ih _ _ r (by simpa using hnd.of_cons)
              (Or.inr ⟨lookup_none_attachChildren _ _ _ hn1, t, v, hraw2⟩)

/-- C4: when the root id is absent from the raw table, or resolves to a text
record rather than an element record, `constructDOMTree` throws
`Failed to parse HTML to dictionary` instead of returning any tree. -/
theorem claim4_malformed_root_fails :
    ∀ (entries : List (String × RawNode)) (rootId : String),
      (entries.map Prod.fst).Nodup →
      (rawLookup entries rootId = none ∨
        ∃ t v, rawLookup entries rootId = some (.text t v)) →
      constructDOMTree entries rootId =
        .error "Failed to parse HTML to dictionary" := by
  intro entries rootId hnd hcase
  unfold constructDOMTree
  cases hps : processEntries entries [] [] with
  | mk nm sm =>
    rcases hcase with hnone | ⟨t, v, hraw⟩
    · have h0 : lookupNode (processEntries entries [] []).1 rootId = none := by
        apply proc_lookup_none entries [] [] rootId rfl
        rw [rawLookup_eq_none_iff] at hnone
        exact hnone
      rw [hps] at h0
      simp only [] at h0
      simp [h0]
    · have h0 : isTextAt (processEntries entries [] []).1 rootId := by
        apply proc_root_text entries [] [] rootId hnd
        exact Or.inr ⟨rfl, t, v, hraw⟩
      rw [hps] at h0
      obtain ⟨d, p, hl⟩ := h0
      simp only [] at hl
      simp [hl]


/-- C4 witness: a root id resolving to a text record makes construction
fail. -/
theorem claim4_malformed_root_fails_witness :
    constructDOMTree entriesWithText "t" =
      .error "Failed to parse HTML to dictionary" :=
  claim4_malformed_root_fails entriesWithText "t" (by decide)
    (Or.inr ⟨"hello", true, by decide⟩)

/-! ## Claim C5 — dangling child references are dropped, not fatal -/

theorem keys_setNode_subset (nm : NodeMap) (id : String) (n : DOMBaseNode) :
    ∀ k ∈ (setNode nm id n).map Prod.fst, k ∈ nm.map Prod.fst ∨ k = id := by
  intro k hk
  by_cases hm : id ∈ nm.map Prod.fst
  · rw [keys_setNode_mem nm n hm] at hk
    exact Or.inl hk
  · rw [keys_setNode_not_mem nm n hm] at hk
    simpa using hk

theorem proc_root_element :
    ∀ (rest : List (String × RawNode)) (nm : NodeMap) (sm : SelectorMap) (r : String),
      (rest.map Prod.fst).Nodup →
      ((isElementAt nm r ∧ r ∉ rest.map Prod.fst) ∨
        (lookupNode nm r = none ∧ ∃ d, rawLookup rest r = some (.element d))) →
      isElementAt (processEntries rest nm sm).1 r := by
  intro rest
  induction rest with
  | nil =>
    intro nm sm r _ hcase
    rcases hcase with ⟨h, _⟩ | ⟨_, d, hraw⟩
    · exact h
    · simp [rawLookup] at hraw
  | cons e rest ih =>
    intro nm sm r hnd hcase
    obtain ⟨id, raw⟩ := e
    rw [processEntries]
    rcases hcase with ⟨h, hnot⟩ | ⟨hnone, dr, hraw⟩
    · have hne : id ≠ r := fun hh => hnot (by simp [hh])
      have hnot2 : r ∉ rest.map Prod.fst := fun hh => hnot (by simp [hh])
      have h1 : isElementAt (setNode nm id (parseNode raw).1) r := by
        obtain ⟨d0, cs0, p0, hl0⟩ := h
        exact ⟨d0, cs0, p0, by
          rw [lookup_setNode_ne nm _ (fun hh => hne hh.symm)]
          exact hl0⟩
      cases hp : parseNode raw with
      | mk node childrenIds =>
        simp only []
        cases node with
        | text d p =>
          refine ih _ _ r (by simpa using hnd.of_cons) (Or.inl ⟨?_, hnot2⟩)
          rw [hp] at h1
          exact h1
        | element d cs p =>
          refine ih _ _ r (by simpa using hnd.of_cons) (Or.inl ⟨?_, hnot2⟩)
          apply isElementAt_attachChildren
          rw [hp] at h1
          exact h1
    · by_cases hid : id = r
      · subst hid
        rw [rawLookup.eq_def] at hraw
        simp only [beq_self_eq_true, if_true] at hraw
        cases hraw
        have hnotrest : id ∉ rest.map Prod.fst := by
          have := hnd
          simp only [List.map_cons, List.nodup_cons] at this
          exact this.1
        cases hp : parseNode (RawNode.element dr) with
        | mk node childrenIds =>
          have hnode : node = (parseNode (RawNode.element dr)).1 := by rw [hp]
          simp only [parseNode] at hnode
          subst hnode
          simp only []
          refine ih _ _ id (by simpa using hnd.of_cons)
            (Or.inl ⟨?_, hnotrest⟩)
          apply isElementAt_attachChildren
          exact ⟨_, _, _, lookup_setNode_self nm id _⟩
      · have hraw2 : rawLookup rest r = some (.element dr) := by
          rw [rawLookup.eq_def] at hraw
          have : (id == r) = false := by simp [hid]
          simpa [this] using hraw
        cases hp : parseNode raw with
        | mk node childrenIds =>
          simp only []
          have hn1 : lookupNode (setNode nm id node) r = none := by
            rw [lookup_setNode_ne nm _ (fun hh => hid hh.symm)]
            exact hnone
          cases node with
          | text d p =>
            exact ih _ _ r (by simpa using hnd.of_cons) (Or.inr ⟨hn1, dr, hraw2⟩)
          | element d cs p =>
            exact ih _ _ r (by simpa using hnd.of_cons)
              (Or.inr ⟨lookup_none_attachChildren _ _ _ hn1, dr, hraw2⟩)


theorem attach_filter (pid : String) (ks : List String) :
    ∀ (cs : List String) (nm : NodeMap),
      (∀ c, c ∉ ks → lookupNode nm c = none) →
      attachChildren pid nm (cs.filter (fun c => decide (c ∈ ks))) =
        attachChildren pid nm cs := by
  intro cs
  induction cs with
  | nil => intro nm _; rfl
  | cons c rest ih =>
    intro nm h
    by_cases hc : c ∈ ks
    · rw [List.filter_cons]
      simp only [hc, decide_True, if_true]
      rw [attachChildren, attachChildren]
      by_cases hl : (lookupNode nm c).isSome
      · rw [if_pos hl, if_pos hl]
        apply ih
        intro x hx
        have hx0 := h x hx
        rw [lookup_eq_none_iff] at hx0 ⊢
        rw [keys_pushChild, keys_setParentOf]
        exact hx0
      · rw [if_neg hl, if_neg hl]
        exact ih nm h
    · rw [List.filter_cons]
      simp only [hc, decide_False, if_false]
      have hl : ¬ (lookupNode nm c).isSome = true := by
        rw [h c hc]
        simp
      rw [show attachChildren pid nm (c :: rest) = attachChildren pid nm rest by
        rw [attachChildren, if_neg hl]]
      exact ih nm h

theorem proc_prune (ks : List String) :
    ∀ (rest : List (String × RawNode)) (nm : NodeMap) (sm : SelectorMap),
      (∀ k ∈ nm.map Prod.fst, k ∈ ks) → (∀ e ∈ rest, e.1 ∈ ks) →
      processEntries (rest.map (fun e => (e.1, pruneRaw ks e.2))) nm sm =
        processEntries rest nm sm := by
  intro rest
  induction rest with
  | nil => intro nm sm _ _; rfl
  | cons e rest ih =>
    intro nm sm hnm hrest
    obtain ⟨id, raw⟩ := e
    have hidks : id ∈ ks := hrest (id, raw) (List.mem_cons_self _ _)
    have hrest2 : ∀ e ∈ rest, e.1 ∈ ks :=
      fun e he => hrest e (List.mem_cons_of_mem _ he)
    cases raw with
    | text t v =>
      simp only [List.map_cons, pruneRaw]
      rw [processEntries, processEntries]
      simp only [parseNode]
      apply ih
      · intro k hk
        rcases keys_setNode_subset nm id _ k hk with hk2 | rfl
        · exact hnm k hk2
        · exact hidks
      · exact hrest2
    | element d =>
      simp only [List.map_cons, pruneRaw]
      rw [processEntries, processEntries]
      simp only [parseNode]
      rw [attach_filter id ks d.children]
      · apply ih
        · intro k hk
          rw [keys_attachChildren] at hk
          rcases keys_setNode_subset nm id _ k hk with hk2 | rfl
          · exact hnm k hk2
          · exact hidks
        · exact hrest2
      · intro c hcks
        rw [lookup_eq_none_iff]
        intro hcmem
        rcases keys_setNode_subset nm id _ c hcmem with hk2 | rfl
        · exact hcks (hnm c hk2)
        · exact hcks hidks

/-- C5: when the root id resolves to an element record, construction
succeeds regardless of dangling child references, and filtering every id
that is absent from the raw table out of the declared child lists leaves the
construction result unchanged — each dangling reference is simply dropped
from the parent's realized children. -/
theorem claim5_dangling_reference_dropped :
    ∀ (entries : List (String × RawNode)) (rootId : String),
      (entries.map Prod.fst).Nodup →
      (∃ d, rawLookup entries rootId = some (.element d)) →
      (constructDOMTree entries rootId).isOk = true ∧
      constructDOMTree (pruneDangling entries) rootId =
        constructDOMTree entries rootId := by
  intro entries rootId hnd hel
  constructor
  · unfold constructDOMTree
    cases hps : processEntries entries [] [] with
    | mk nm sm =>
      have h0 : isElementAt (processEntries entries [] []).1 rootId := by
        apply proc_root_element entries [] [] rootId hnd
        exact Or.inr ⟨rfl, hel⟩
      rw [hps] at h0
      obtain ⟨d, cs, p, hl⟩ := h0
      simp only [] at hl
      simp [hl, Except.isOk, Except.toBool]
  · unfold constructDOMTree pruneDangling
    rw [proc_prune (entries.map Prod.fst) entries [] [] (by simp)
      (fun e he => List.mem_map.mpr ⟨e, he, rfl⟩)]


/-- C5 witness: the dangling `ghost` reference neither fails construction
nor changes the result relative to the pruned table. -/
theorem claim5_dangling_reference_dropped_witness :
    (constructDOMTree entriesDangling "0").isOk = true ∧
    constructDOMTree (pruneDangling entriesDangling) "0" =
      constructDOMTree entriesDangling "0" :=
  claim5_dangling_reference_dropped entriesDangling "0" (by decide)
    ⟨bodyGhostData, by decide⟩

/-! ## Claim C9 — parent/child consistency and acyclicity -/


theorem setParentOf_of_none {nm : NodeMap} {cid : String} (pid : String)
    (h : lookupNode nm cid = none) : setParentOf nm cid pid = nm := by
  unfold setParentOf
  rw [h]

theorem setParentOf_eq_setNode {nm : NodeMap} {cid : String} {n : DOMBaseNode}
    (pid : String) (h : lookupNode nm cid = some n) :
    setParentOf nm cid pid = setNode nm cid (withParent n pid) := by
  unfold setParentOf
  rw [h]
  cases n with
  | text d p => rfl
  | element d cs p => rfl

theorem lookup_setParentOf_self {nm : NodeMap} {cid : String} {n : DOMBaseNode}
    (pid : String) (h : lookupNode nm cid = some n) :
    lookupNode (setParentOf nm cid pid) cid = some (withParent n pid) := by
  rw [setParentOf_eq_setNode pid h]
  exact lookup_setNode_self nm cid _

theorem lookup_setParentOf_ne {nm : NodeMap} {cid k : String} (pid : String)
    (h : k ≠ cid) :
    lookupNode (setParentOf nm cid pid) k = lookupNode nm k := by
  cases hl : lookupNode nm cid with
  | none => rw [setParentOf_of_none pid hl]
  | some n =>
    rw [setParentOf_eq_setNode pid hl]
    exact lookup_setNode_ne nm _ h

theorem pushChild_of_not_element {nm : NodeMap} {pid : String} (cid : String)
    (h : ∀ d cs p, lookupNode nm pid ≠ some (.element d cs p)) :
    pushChild nm pid cid = nm := by
  unfold pushChild
  cases hl : lookupNode nm pid with
  | none => rfl
  | some n =>
    cases n with
    | text d p => rfl
    | element d cs p => exact absurd hl (h d cs p)

theorem pushChild_eq_setNode {nm : NodeMap} {pid : String}
    {d : DOMElementNodeData} {cs : List String} {p : Option String} (cid : String)
    (h : lookupNode nm pid = some (.element d cs p)) :
    pushChild nm pid cid = setNode nm pid (.element d (cs ++ [cid]) p) := by
  unfold pushChild
  rw [h]

theorem lookup_pushChild_ne {nm : NodeMap} {pid k : String} (cid : String)
    (h : k ≠ pid) :
    lookupNode (pushChild nm pid cid) k = lookupNode nm k := by
  cases hl : lookupNode nm pid with
  | none => unfold pushChild; rw [hl]
  | some n =>
    cases n with
    | text d p => unfold pushChild; rw [hl]
    | element d cs p =>
      rw [pushChild_eq_setNode cid hl]
      exact lookup_setNode_ne nm _ h

theorem keyIdx_lt_length_of_mem {nm : NodeMap} {k : String}
    (h : k ∈ nm.map Prod.fst) : keyIdx nm k < nm.length := by
  unfold keyIdx
  have h2 : (nm.map Prod.fst).findIdx (fun x => x == k) <
      (nm.map Prod.fst).length :=
    List.findIdx_lt_length_of_exists ⟨k, h, by simp⟩
  simpa using h2

theorem walkUp_isSome_of_ranked (nm : NodeMap) (hrank : ParentLater nm) :
    ∀ (fuel : Nat) (id : String), nm.length - keyIdx nm id < fuel →
      (walkUp nm fuel id).isSome := by
  intro fuel
  induction fuel with
  | zero => intro id h; omega
  | succ f ih =>
    intro id h
    rw [walkUp]
    cases hl : lookupNode nm id with
    | none => simp [hl]
    | some n =>
      simp only [hl]
      cases hp : nodeParent n with
      | none => simp [hp]
      | some p =>
        simp only [hp]
        have hr := hrank id n p hl hp
        have hs : (walkUp nm f p).isSome := ih p (by omega)
        rcases Option.isSome_iff_exists.mp hs with ⟨v, hv⟩
        rw [hv]
        rfl

/-- A parent ranking makes every upward walk terminate within the arena
size. -/
theorem acyclic_of_parentLater (nm : NodeMap) (h : ParentLater nm) :
    AcyclicUp nm := by
  intro id
  apply walkUp_isSome_of_ranked nm h
  omega

theorem nodeChildren_withParent (n : DOMBaseNode) (p : String) :
    nodeChildren (withParent n p) = nodeChildren n := by
  cases n with
  | text d q => rfl
  | element d cs q => rfl

theorem nodeParent_withParent (n : DOMBaseNode) (p : String) :
    nodeParent (withParent n p) = some p := by
  cases n with
  | text d q => rfl
  | element d cs q => rfl

theorem children_setParentOf {nm : NodeMap} {c pid k : String} {n : DOMBaseNode}
    (hl : lookupNode (setParentOf nm c pid) k = some n) :
    ∃ n0, lookupNode nm k = some n0 ∧ nodeChildren n = nodeChildren n0 := by
  by_cases hk : k = c
  · subst hk
    cases hl0 : lookupNode nm k with
    | none =>
      rw [setParentOf_of_none pid hl0, hl0] at hl
      exact absurd hl (by simp)
    | some nc =>
      rw [lookup_setParentOf_self pid hl0] at hl
      cases hl
      exact ⟨nc, rfl, nodeChildren_withParent nc pid⟩
  · rw [lookup_setParentOf_ne pid hk] at hl
    exact ⟨n, hl, rfl⟩

theorem parent_setParentOf_ne {nm : NodeMap} {c pid k : String} {n : DOMBaseNode}
    (hk : k ≠ c) (hl : lookupNode (setParentOf nm c pid) k = some n) :
    ∃ n0, lookupNode nm k = some n0 ∧ nodeParent n = nodeParent n0 := by
  rw [lookup_setParentOf_ne pid hk] at hl
  exact ⟨n, hl, rfl⟩

theorem parent_pushChild {nm : NodeMap} {pid cid k : String} {n : DOMBaseNode}
    (hl : lookupNode (pushChild nm pid cid) k = some n) :
    ∃ n0, lookupNode nm k = some n0 ∧ nodeParent n = nodeParent n0 := by
  by_cases hk : k = pid
  · subst hk
    cases hl0 : lookupNode nm k with
    | none =>
      simp only [pushChild, hl0] at hl
      exact absurd hl (by simp)
    | some np =>
      cases np with
      | text d p =>
        simp only [pushChild, hl0] at hl
        cases hl
        exact ⟨.text d p, rfl, rfl⟩
      | element d cs p =>
        rw [pushChild_eq_setNode cid hl0, lookup_setNode_self] at hl
        cases hl
        exact ⟨.element d cs p, rfl, rfl⟩
  · rw [lookup_pushChild_ne cid hk] at hl
    exact ⟨n, hl, rfl⟩

theorem children_pushChild {nm : NodeMap} {pid cid k x : String} {n : DOMBaseNode}
    (hl : lookupNode (pushChild nm pid cid) k = some n)
    (hx : x ∈ nodeChildren n) :
    (∃ n0, lookupNode nm k = some n0 ∧ x ∈ nodeChildren n0) ∨ (k = pid ∧ x = cid) := by
  by_cases hk : k = pid
  · subst hk
    cases hl0 : lookupNode nm k with
    | none =>
      simp only [pushChild, hl0] at hl
      exact absurd hl (by simp)
    | some np =>
      cases np with
      | text d p =>
        simp only [pushChild, hl0] at hl
        cases hl
        exact Or.inl ⟨.text d p, rfl, hx⟩
      | element d cs p =>
        rw [pushChild_eq_setNode cid hl0, lookup_setNode_self] at hl
        cases hl
        rcases List.mem_append.mp hx with hx0 | hx1
        · exact Or.inl ⟨.element d cs p, rfl, hx0⟩
        · exact Or.inr ⟨rfl, by simpa using hx1⟩
  · rw [lookup_pushChild_ne cid hk] at hl
    exact Or.inl ⟨n, hl, hx⟩

theorem children_attach_step {nm : NodeMap} {c pid0 k x : String} {n : DOMBaseNode}
    (hl : lookupNode (pushChild (setParentOf nm c pid0) pid0 c) k = some n)
    (hx : x ∈ nodeChildren n) :
    (∃ n0, lookupNode nm k = some n0 ∧ x ∈ nodeChildren n0) ∨ (k = pid0 ∧ x = c) := by
  rcases children_pushChild hl hx with ⟨n1, hl1, hx1⟩ | hxc
  · rcases children_setParentOf hl1 with ⟨n0, hl0, hch⟩
    exact Or.inl ⟨n0, hl0, hch ▸ hx1⟩
  · exact Or.inr hxc

theorem findIdx_append_of_mem {l1 l2 : List String} {k : String} (h : k ∈ l1) :
    (l1 ++ l2).findIdx (fun x => x == k) = l1.findIdx (fun x => x == k) := by
  induction l1 with
  | nil => simp at h
  | cons a t ih =>
    rw [List.cons_append, List.findIdx_cons, List.findIdx_cons]
    by_cases ha : (a == k) = true
    · simp [ha]
    · have hne : ¬ a = k := by simpa using ha
      have hkt : k ∈ t := by
        rcases List.mem_cons.mp h with hh | hh
        · exact absurd hh.symm hne
        · exact hh
      simp only [ha, cond_false]
      rw [ih hkt]

theorem findIdx_append_of_not_mem {l1 l2 : List String} {k : String} (h : k ∉ l1) :
    (l1 ++ l2).findIdx (fun x => x == k) =
      l1.length + l2.findIdx (fun x => x == k) := by
  induction l1 with
  | nil => simp
  | cons a t ih =>
    have hne : ¬ (a == k) = true := by
      simp only [beq_iff_eq]
      intro hh
      exact h (by simp [hh])
    rw [List.cons_append, List.findIdx_cons]
    simp only [hne, cond_false]
    rw [ih (fun hh => h (List.mem_cons_of_mem _ hh))]
    simp only [List.length_cons]
    omega

theorem mem_of_findIdx_lt {l : List String} {k : String}
    (h : l.findIdx (fun x => x == k) < l.length) : k ∈ l := by
  induction l with
  | nil => simp at h
  | cons a t ih =>
    rw [List.findIdx_cons] at h
    by_cases ha : (a == k) = true
    · exact List.mem_cons.mpr (Or.inl (beq_iff_eq.mp ha).symm)
    · simp only [ha, cond_false] at h
      have h2 : t.findIdx (fun x => x == k) < t.length := by
        simp only [List.length_cons] at h
        omega
      exact List.mem_cons_of_mem _ (ih h2)

theorem keyIdx_last {nm : NodeMap} {keys0 : List String} {id : String}
    (h : nm.map Prod.fst = keys0 ++ [id]) (hid : id ∉ keys0) :
    keyIdx nm id = keys0.length := by
  unfold keyIdx
  rw [h, findIdx_append_of_not_mem hid]
  simp [List.findIdx_cons]

theorem keyIdx_keys0_lt {nm : NodeMap} {keys0 : List String} {id c : String}
    (h : nm.map Prod.fst = keys0 ++ [id]) (hc : c ∈ keys0) :
    keyIdx nm c < keys0.length := by
  unfold keyIdx
  rw [h, findIdx_append_of_mem hc]
  exact List.findIdx_lt_length_of_exists ⟨c, hc, by simp⟩

theorem length_eq_of_keys_eq {nm nm' : NodeMap}
    (h : nm.map Prod.fst = nm'.map Prod.fst) : nm.length = nm'.length := by
  have := congrArg List.length h
  simpa using this

theorem attach_children_subset (pid0 : String) :
    ∀ (cs : List String) (nm : NodeMap) (k : String) (n : DOMBaseNode) (x : String),
      lookupNode (attachChildren pid0 nm cs) k = some n → x ∈ nodeChildren n →
      (∃ n0, lookupNode nm k = some n0 ∧ x ∈ nodeChildren n0) ∨ x ∈ cs := by
  intro cs
  induction cs with
  | nil =>
    intro nm k n x hl hx
    exact Or.inl ⟨n, hl, hx⟩
  | cons c rest ih =>
    intro nm k n x hl hx
    rw [attachChildren] at hl
    by_cases hc : (lookupNode nm c).isSome
    · rw [if_pos hc] at hl
      rcases ih _ k n x hl hx with ⟨n1, hl1, hx1⟩ | hxr
      · rcases children_attach_step hl1 hx1 with ⟨n0, hl0, hx0⟩ | hxc
        · exact Or.inl ⟨n0, hl0, hx0⟩
        · exact Or.inr (by simp [hxc.2])
      · exact Or.inr (List.mem_cons_of_mem _ hxr)
    · rw [if_neg hc] at hl
      rcases ih _ k n x hl hx with h0 | hxr
      · exact Or.inl h0
      · exact Or.inr (List.mem_cons_of_mem _ hxr)

theorem attach_invariants (pid0 : String) (keys0 : List String) :
    ∀ (cs : List String) (nm : NodeMap),
      nm.map Prod.fst = keys0 ++ [pid0] →
      pid0 ∉ keys0 →
      cs.Nodup →
      pid0 ∉ cs →
      (∀ c ∈ cs, ∀ k n, lookupNode nm k = some n → c ∉ nodeChildren n) →
      ChildrenConsistent nm →
      ParentLater nm →
      ChildrenConsistent (attachChildren pid0 nm cs) ∧
      ParentLater (attachChildren pid0 nm cs) := by
  intro cs
  induction cs with
  | nil =>
    intro nm _ _ _ _ _ hcons hrank
    exact ⟨hcons, hrank⟩
  | cons c rest ih =>
    intro nm hkeys hpk hnodup hpcs hfresh hcons hrank
    have hcpid : c ≠ pid0 := fun hh => hpcs (by simp [hh])
    rw [attachChildren]
    by_cases hl : (lookupNode nm c).isSome
    · rw [if_pos hl]
      obtain ⟨nc, hnc⟩ := Option.isSome_iff_exists.mp hl
      have hkeysA : (setParentOf nm c pid0).map Prod.fst = nm.map Prod.fst :=
        keys_setParentOf nm c pid0
      have hkeysN : (pushChild (setParentOf nm c pid0) pid0 c).map Prod.fst =
          nm.map Prod.fst := by
        rw [keys_pushChild, hkeysA]
      -- the node at c after the step
      have hnmc : lookupNode (pushChild (setParentOf nm c pid0) pid0 c) c =
          some (withParent nc pid0) := by
        rw [lookup_pushChild_ne c hcpid]
        exact lookup_setParentOf_self pid0 hnc
      -- parents of everything except c are untouched
      have hpar : ∀ x, x ≠ c →
          parentOf (pushChild (setParentOf nm c pid0) pid0 c) x = parentOf nm x := by
        intro x hxc
        unfold parentOf
        cases hlx : lookupNode (pushChild (setParentOf nm c pid0) pid0 c) x with
        | none =>
          have hnone : lookupNode nm x = none := by
            rw [lookup_eq_none_iff] at hlx ⊢
            rw [hkeysN] at hlx
            exact hlx
          rw [hnone]
        | some nx =>
          rcases parent_pushChild hlx with ⟨n1, hl1, hp1⟩
          rcases parent_setParentOf_ne hxc hl1 with ⟨n0, hl0, hp0⟩
          rw [hl0]
          exact hp1.trans hp0
      -- c is a child of nobody in nm
      have hcnowhere : ∀ k n, lookupNode nm k = some n → c ∉ nodeChildren n :=
        hfresh c (List.mem_cons_self _ _)
      have hcmem : c ∈ keys0 := by
        have : c ∈ nm.map Prod.fst := by
          by_contra hc0
          rw [← lookup_eq_none_iff] at hc0
          rw [hc0] at hnc
          exact Option.noConfusion hnc
        rw [hkeys] at this
        rcases List.mem_append.mp this with hh | hh
        · exact hh
        · exact absurd (by simpa using hh) hcpid
      have hkidx : ∀ y, keyIdx (pushChild (setParentOf nm c pid0) pid0 c) y =
          keyIdx nm y := by
        intro y
        unfold keyIdx
        rw [hkeysN]
      have hlen : (pushChild (setParentOf nm c pid0) pid0 c).length = nm.length :=
        length_eq_of_keys_eq hkeysN
      have hlen0 : nm.length = keys0.length + 1 := by
        have := congrArg List.length hkeys
        simpa using this
      -- consistency for the updated arena
      have hcons2 : ChildrenConsistent (pushChild (setParentOf nm c pid0) pid0 c) := by
        intro k n hk x hx
        rcases children_attach_step hk hx with ⟨n0, hl0, hx0⟩ | ⟨hkp, hxc⟩
        · have hxne : x ≠ c := fun hh => hcnowhere k n0 hl0 (hh ▸ hx0)
          rw [hpar x hxne]
          exact hcons k n0 hl0 x hx0
        · rw [hkp, hxc]
          unfold parentOf
          rw [hnmc]
          exact nodeParent_withParent nc pid0
      -- ranking for the updated arena
      have hrank2 : ParentLater (pushChild (setParentOf nm c pid0) pid0 c) := by
        intro x n p hlx hpn
        by_cases hxc : x = c
        · subst hxc
          rw [hnmc] at hlx
          cases hlx
          rw [nodeParent_withParent] at hpn
          cases hpn
          rw [hkidx, hkidx, hlen]
          have h1 : keyIdx nm x < keys0.length := keyIdx_keys0_lt hkeys hcmem
          have h2 : keyIdx nm pid0 = keys0.length := keyIdx_last hkeys hpk
          omega
        · rcases parent_pushChild hlx with ⟨n1, hl1, hp1⟩
          rcases parent_setParentOf_ne hxc hl1 with ⟨n0, hl0, hp0⟩
          have := hrank x n0 p hl0 (by rw [← hp0, ← hp1]; exact hpn)
          rw [hkidx, hkidx, hlen]
          exact this
      -- the remaining children are still fresh
      have hfresh2 : ∀ c2 ∈ rest, ∀ k n,
          lookupNode (pushChild (setParentOf nm c pid0) pid0 c) k = some n →
          c2 ∉ nodeChildren n := by
        intro c2 hc2 k n hk hmem
        rcases children_attach_step hk hmem with ⟨n0, hl0, hx0⟩ | ⟨_, hxc⟩
        · exact hfresh c2 (List.mem_cons_of_mem _ hc2) k n0 hl0 hx0
        · subst hxc
          exact (List.nodup_cons.mp hnodup).1 hc2
      exact ih _ (by rw [hkeysN, hkeys]) hpk (List.nodup_cons.mp hnodup).2
        (fun hh => hpcs (List.mem_cons_of_mem _ hh)) hfresh2 hcons2 hrank2
    · rw [if_neg hl]
      exact ih nm hkeys hpk (List.nodup_cons.mp hnodup).2
        (fun hh => hpcs (List.mem_cons_of_mem _ hh))
        (fun c2 hc2 => hfresh c2 (List.mem_cons_of_mem _ hc2)) hcons hrank

theorem parseNode_node_children (raw : RawNode) :
    nodeChildren (parseNode raw).1 = [] := by
  cases raw <;> rfl

theorem parseNode_node_parent (raw : RawNode) :
    nodeParent (parseNode raw).1 = none := by
  cases raw <;> rfl

theorem parseNode_childIds (raw : RawNode) :
    (parseNode raw).2 = rawChildIds raw := by
  cases raw <;> rfl

theorem mem_of_keyIdx_lt {nm : NodeMap} {k : String}
    (h : keyIdx nm k < nm.length) : k ∈ nm.map Prod.fst := by
  unfold keyIdx at h
  exact mem_of_findIdx_lt (by simpa using h)

theorem parentOf_some_mem {nm : NodeMap} {x k : String}
    (h : parentOf nm x = some k) : x ∈ nm.map Prod.fst := by
  unfold parentOf at h
  cases hl : lookupNode nm x with
  | none => rw [hl] at h; exact Option.noConfusion h
  | some n =>
    by_contra hc
    rw [← lookup_eq_none_iff] at hc
    rw [hc] at hl
    exact Option.noConfusion hl

theorem attach_rootFree (pid0 rootId : String) :
    ∀ (cs : List String) (nm : NodeMap), rootId ∉ cs →
      (∀ n, lookupNode nm rootId = some n → nodeParent n = none) →
      ∀ n, lookupNode (attachChildren pid0 nm cs) rootId = some n →
        nodeParent n = none := by
  intro cs
  induction cs with
  | nil => intro nm _ h n hl; exact h n hl
  | cons c rest ih =>
    intro nm hroot h n hl
    rw [attachChildren] at hl
    by_cases hc : (lookupNode nm c).isSome
    · rw [if_pos hc] at hl
      refine ih _ (fun hh => hroot (List.mem_cons_of_mem _ hh)) ?_ n hl
      intro n2 hl2
      rcases parent_pushChild hl2 with ⟨n1, hl1, hp1⟩
      have hrc : rootId ≠ c := fun hh => hroot (by simp [hh])
      rcases parent_setParentOf_ne hrc hl1 with ⟨n0, hl0, hp0⟩
      rw [hp1, hp0]
      exact h n0 hl0
    · rw [if_neg hc] at hl
      exact ih _ (fun hh => hroot (List.mem_cons_of_mem _ hh)) h n hl

theorem insert_fresh_cons {nm : NodeMap} {id : String} {node : DOMBaseNode}
    (hid : id ∉ nm.map Prod.fst) (hch : nodeChildren node = [])
    (hcons : ChildrenConsistent nm) : ChildrenConsistent (setNode nm id node) := by
  intro k n hk x hx
  by_cases hkid : k = id
  · rw [hkid, lookup_setNode_self] at hk
    cases hk
    rw [hch] at hx
    simp at hx
  · rw [lookup_setNode_ne nm _ hkid] at hk
    have hpx := hcons k n hk x hx
    have hxmem : x ∈ nm.map Prod.fst := parentOf_some_mem hpx
    have hxid : x ≠ id := fun hh => hid (hh ▸ hxmem)
    unfold parentOf
    rw [lookup_setNode_ne nm _ hxid]
    exact hpx

theorem insert_fresh_rank {nm : NodeMap} {id : String} {node : DOMBaseNode}
    (hid : id ∉ nm.map Prod.fst) (hpar : nodeParent node = none)
    (hrank : ParentLater nm) : ParentLater (setNode nm id node) := by
  have hkeys1 : (setNode nm id node).map Prod.fst = nm.map Prod.fst ++ [id] := by
    rw [keys_setNode_not_mem nm _ hid]
    simp
  intro x n p hx hp
  by_cases hxid : x = id
  · rw [hxid, lookup_setNode_self] at hx
    cases hx
    rw [hpar] at hp
    exact Option.noConfusion hp
  · rw [lookup_setNode_ne nm _ hxid] at hx
    have hr := hrank x n p hx hp
    have hxmem : x ∈ nm.map Prod.fst := mem_of_keyIdx_lt (by omega)
    have hpmem : p ∈ nm.map Prod.fst := mem_of_keyIdx_lt hr.2
    have hx1 : keyIdx (setNode nm id node) x = keyIdx nm x := by
      unfold keyIdx
      rw [hkeys1, findIdx_append_of_mem hxmem]
    have hp1 : keyIdx (setNode nm id node) p = keyIdx nm p := by
      unfold keyIdx
      rw [hkeys1, findIdx_append_of_mem hpmem]
    have hlen1 : (setNode nm id node).length = nm.length + 1 := by
      have h0 := congrArg List.length hkeys1
      simp at h0
      omega
    rw [hx1, hp1, hlen1]
    omega

theorem insert_fresh_root {nm : NodeMap} {id rootId : String} {node : DOMBaseNode}
    (hpar : nodeParent node = none)
    (hroot : ∀ n, lookupNode nm rootId = some n → nodeParent n = none) :
    ∀ n, lookupNode (setNode nm id node) rootId = some n → nodeParent n = none := by
  intro n hl
  by_cases hrid : rootId = id
  · rw [hrid, lookup_setNode_self] at hl
    cases hl
    exact hpar
  · rw [lookup_setNode_ne nm _ hrid] at hl
    exact hroot n hl

theorem insert_fresh_clean {nm : NodeMap} {id c : String} {node : DOMBaseNode}
    (hch : nodeChildren node = [])
    (hf : ∀ k n, lookupNode nm k = some n → c ∉ nodeChildren n) :
    ∀ k n, lookupNode (setNode nm id node) k = some n → c ∉ nodeChildren n := by
  intro k n hk
  by_cases hkid : k = id
  · rw [hkid, lookup_setNode_self] at hk
    cases hk
    rw [hch]
    simp
  · rw [lookup_setNode_ne nm _ hkid] at hk
    exact hf k n hk

theorem proc_inv :
    ∀ (rest : List (String × RawNode)) (nm : NodeMap) (sm : SelectorMap) (rootId : String),
      (nm.map Prod.fst).Nodup →
      (∀ k ∈ rest.map Prod.fst, k ∉ nm.map Prod.fst) →
      (rest.map Prod.fst).Nodup →
      (allRawChildIds rest).Nodup →
      (∀ e ∈ rest, e.1 ∉ rawChildIds e.2) →
      (∀ c ∈ allRawChildIds rest, ∀ k n, lookupNode nm k = some n → c ∉ nodeChildren n) →
      rootId ∉ allRawChildIds rest →
      ChildrenConsistent nm →
      ParentLater nm →
      (∀ n, lookupNode nm rootId = some n → nodeParent n = none) →
      ChildrenConsistent (processEntries rest nm sm).1 ∧
      ParentLater (processEntries rest nm sm).1 ∧
      (∀ n, lookupNode (processEntries rest nm sm).1 rootId = some n →
        nodeParent n = none) := by
  intro rest
  induction rest with
  | nil =>
    intro nm sm rootId _ _ _ _ _ _ _ hcons hrank hroot
    exact ⟨hcons, hrank, hroot⟩
  | cons e rest ih =>
    intro nm sm rootId hnmnd hdisj hknd hcnd hself hfresh hrootfree hcons hrank hroot
    obtain ⟨id, raw⟩ := e
    have hidfresh : id ∉ nm.map Prod.fst := hdisj id (by simp)
    have hflat : allRawChildIds ((id, raw) :: rest) =
        rawChildIds raw ++ allRawChildIds rest := by
      simp [allRawChildIds]
    have hheadnd : (rawChildIds raw).Nodup := by
      rw [hflat] at hcnd
      exact (List.nodup_append.mp hcnd).1
    have htailnd : (allRawChildIds rest).Nodup := by
      rw [hflat] at hcnd
      exact (List.nodup_append.mp hcnd).2.1
    have hdisjflat : ∀ c ∈ allRawChildIds rest, c ∉ rawChildIds raw := by
      intro c hc hcr
      rw [hflat] at hcnd
      exact (List.nodup_append.mp hcnd).2.2 hcr hc
    have hrootnotchild : rootId ∉ rawChildIds raw := by
      intro hh
      exact hrootfree (by rw [hflat]; exact List.mem_append.mpr (Or.inl hh))
    have hroottail : rootId ∉ allRawChildIds rest := by
      intro hh
      exact hrootfree (by rw [hflat]; exact List.mem_append.mpr (Or.inr hh))
    have hknd2 : (rest.map Prod.fst).Nodup := by
      simp only [List.map_cons, List.nodup_cons] at hknd
      exact hknd.2
    have hidrest : id ∉ rest.map Prod.fst := by
      simp only [List.map_cons, List.nodup_cons] at hknd
      exact hknd.1
    have hfreshtail : ∀ c ∈ allRawChildIds rest, ∀ k n,
        lookupNode nm k = some n → c ∉ nodeChildren n := by
      intro c hc
      exact hfresh c (by rw [hflat]; exact List.mem_append.mpr (Or.inr hc))
    have hfreshhead : ∀ c ∈ rawChildIds raw, ∀ k n,
        lookupNode nm k = some n → c ∉ nodeChildren n := by
      intro c hc
      exact hfresh c (by rw [hflat]; exact List.mem_append.mpr (Or.inl hc))
    rw [processEntries]
    cases hp : parseNode raw with
    | mk node childrenIds =>
      have hch : nodeChildren node = [] := by
        have h0 := parseNode_node_children raw
        rw [hp] at h0
        exact h0
      have hpar : nodeParent node = none := by
        have h0 := parseNode_node_parent raw
        rw [hp] at h0
        exact h0
      have hcid2 : childrenIds = rawChildIds raw := by
        have h0 := parseNode_childIds raw
        rw [hp] at h0
        exact h0
      have hkeys1 : (setNode nm id node).map Prod.fst = nm.map Prod.fst ++ [id] := by
        rw [keys_setNode_not_mem nm _ hidfresh]
        simp
      have hnmnd1 : ((nm.map Prod.fst) ++ [id]).Nodup := by
        rw [List.nodup_append]
        refine ⟨hnmnd, by simp, ?_⟩
        intro a ha hb
        rw [List.mem_singleton] at hb
        exact hidfresh (hb ▸ ha)
      have hdisj2 : ∀ k ∈ rest.map Prod.fst, k ∉ (setNode nm id node).map Prod.fst := by
        intro k hk hmem
        rw [hkeys1] at hmem
        rcases List.mem_append.mp hmem with hh | hh
        · exact hdisj k (List.mem_cons_of_mem _ hk) hh
        · have hki : k = id := by simpa using hh
          exact hidrest (hki ▸ hk)
      have hcons1 : ChildrenConsistent (setNode nm id node) :=
        insert_fresh_cons hidfresh hch hcons
      have hrank1 : ParentLater (setNode nm id node) :=
        insert_fresh_rank hidfresh hpar hrank
      have hroot1 : ∀ n, lookupNode (setNode nm id node) rootId = some n →
          nodeParent n = none :=
        insert_fresh_root hpar hroot
      have hfreshtail1 : ∀ c ∈ allRawChildIds rest, ∀ k n,
          lookupNode (setNode nm id node) k = some n → c ∉ nodeChildren n :=
        fun c hc => insert_fresh_clean hch (hfreshtail c hc)
      have hfreshhead1 : ∀ c ∈ rawChildIds raw, ∀ k n,
          lookupNode (setNode nm id node) k = some n → c ∉ nodeChildren n :=
        fun c hc => insert_fresh_clean hch (hfreshhead c hc)
      cases node with
      | text d p =>
        simp only []
        exact ih _ _ rootId (by rw [hkeys1]; exact hnmnd1) hdisj2 hknd2 htailnd
          (fun e he => hself e (List.mem_cons_of_mem _ he)) hfreshtail1 hroottail
          hcons1 hrank1 hroot1
      | element d cs p =>
        simp only []
        have hai := attach_invariants id (nm.map Prod.fst) childrenIds
          (setNode nm id (.element d cs p)) hkeys1 hidfresh
          (hcid2 ▸ hheadnd)
          (by rw [hcid2]; exact hself (id, raw) (by simp))
          (by intro c hc; exact hfreshhead1 c (hcid2 ▸ hc))
          hcons1 hrank1
        refine ih _ _ rootId ?_ ?_ hknd2 htailnd
          (fun e he => hself e (List.mem_cons_of_mem _ he)) ?_ hroottail
          hai.1 hai.2 ?_
        · rw [keys_attachChildren, hkeys1]
          exact hnmnd1
        · intro k hk
          rw [keys_attachChildren]
          exact hdisj2 k hk
        · intro c hc k n hk hmem
          rcases attach_children_subset id childrenIds _ k n c hk hmem with
            ⟨n0, hl0, hx0⟩ | hcs
          · exact hfreshtail1 c hc k n0 hl0 hx0
          · exact hdisjflat c hc (hcid2 ▸ hcs)
        · apply attach_rootFree
          · rw [hcid2]
            exact hrootnotchild
          · exact hroot1

/-- C9 counterexample: a raw table whose single element record lists its own
id as a child constructs successfully, yet the resulting node is its own
parent and its own child — the parent-linked structure is cyclic, so the
claimed invariant does not hold for every construction output. -/
theorem claim9_counterexample :
    (constructDOMTree entriesSelfLoop "0").isOk = true ∧
    childrenOf nmSelfLoop "0" = ["0"] ∧
    parentOf nmSelfLoop "0" = some "0" ∧
    ¬ AcyclicUp nmSelfLoop := by
  refine ⟨by decide, by decide, by decide, ?_⟩
  intro h
  have h0 := h "0"
  rw [(by decide : walkUp nmSelfLoop (nmSelfLoop.length + 1) "0" = none)] at h0
  simp at h0

/-- C9 (amended): for raw tables whose entries have distinct keys, whose
declared child ids are listed at most once overall, in which no record lists
its own id, and whose root id is listed by nobody, the constructed arena
satisfies the claimed invariant: every id in an element's realized children
list resolves to a node whose parent back-reference is exactly that element,
the parent-linked structure is acyclic (every upward walk terminates within
the arena size), and the root's parent back-reference is none.  All core
operations are pure functions of the arena, so none of them can disturb
this. -/
theorem claim9_construction_invariants :
    ∀ (entries : List (String × RawNode)) (rootId : String),
      (entries.map Prod.fst).Nodup →
      (allRawChildIds entries).Nodup →
      (∀ e ∈ entries, e.1 ∉ rawChildIds e.2) →
      rootId ∉ allRawChildIds entries →
      ChildrenConsistent (constructedNodeMap entries) ∧
      AcyclicUp (constructedNodeMap entries) ∧
      (∀ n, lookupNode (constructedNodeMap entries) rootId = some n →
        nodeParent n = none) := by
  intro entries rootId h1 h2 h3 h4
  have h0 := proc_inv entries [] [] rootId (by simp) (by simp) h1 h2 h3
    (by intro c hc k n hk; simp [lookupNode] at hk) h4
    (by intro k n hk; simp [lookupNode] at hk)
    (by intro x n p hx hp; simp [lookupNode] at hx)
    (by intro n hl; simp [lookupNode] at hl)
  exact ⟨h0.1, acyclic_of_parentLater _ h0.2.1, h0.2.2⟩

/-- C9 witness: the invariants hold for the concrete scenario table. -/
theorem claim9_construction_invariants_witness :
    ChildrenConsistent (constructedNodeMap entriesChildFirst) ∧
    AcyclicUp (constructedNodeMap entriesChildFirst) ∧
    (∀ n, lookupNode (constructedNodeMap entriesChildFirst) "0" = some n →
      nodeParent n = none) :=
  claim9_construction_invariants entriesChildFirst "0" (by decide) (by decide)
    (by decide) (by decide)

theorem strList_roundtrip (l : List String) :
    strListFromJson (l.map Json.str) = some l := by
  induction l with
  | nil => rfl
  | cons s rest ih => simp [strListFromJson, asStr, ih]

theorem attrs_roundtrip (l : List (String × String)) :
    attrsFromJson (l.map (fun p => (p.1, Json.str p.2))) = some l := by
  induction l with
  | nil => rfl
  | cons p rest ih => simp [attrsFromJson, asStr, ih]

theorem coord_roundtrip (c : CoordinateSet) :
    coordinateSetFromJson (coordinateSetToJson c) = some c := rfl

theorem viewport_roundtrip (v : ViewportInfo) :
    viewportInfoFromJson (viewportInfoToJson v) = some v := rfl

/-- Any history record survives the field-for-field JSON round trip. -/
theorem history_roundtrip (h : DOMHistoryElement) :
    historyElementFromJson (historyElementToJson h) = some h := by
  obtain ⟨tagName, xpath, hi, path, attrs, sr, css, pc, vc, vi⟩ := h
  cases hi <;> cases css <;> cases pc <;> cases vc <;> cases vi <;>
    simp [historyElementToJson, historyElementFromJson, optField, optFieldFromJson,
      jGet, asStr, asBool, asNum, strList_roundtrip, attrs_roundtrip,
      coord_roundtrip, viewport_roundtrip]

/-- C3: converting an element to a history record, serializing the record to
JSON field for field, deserializing it, and comparing the result with the
original element with `compareHistoryElementAndDomElement` yields `true`; in
particular the record's stored branch path, attributes and xpath hash to the
same three components as recomputing them from the live element. -/
theorem claim3_history_record_roundtrip :
    ∀ (hf : Nat) (nm : NodeMap) (id : String) (d : DOMElementNodeData),
      elementDataOf nm id = some d →
      ∃ r, HistoryTreeProcessor.convertDomElementToHistoryElement hf nm id = some r ∧
        historyElementFromJson (historyElementToJson r) = some r ∧
        HistoryTreeProcessor.compareHistoryElementAndDomElement hf r nm id = true ∧
        HistoryTreeProcessor.hashDomHistoryElement r =
          HistoryTreeProcessor.hashDomElement hf nm id := by
  intro hf nm id d hd
  have hattrs : attributesOf nm id = d.attributes := by simp [attributesOf, hd]
  have hxp : xpathOf nm id = d.xpath := by simp [xpathOf, hd]
  have hhash : HistoryTreeProcessor.hashDomHistoryElement
      { tagName := d.tagName, xpath := d.xpath, highlightIndex := d.highlightIndex,
        entireParentBranchPath := HistoryTreeProcessor.getParentBranchPath hf nm id,
        attributes := d.attributes, shadowRoot := d.shadowRoot, cssSelector := none,
        pageCoordinates := d.pageCoordinates,
        viewportCoordinates := d.viewportCoordinates,
        viewportInfo := d.viewportInfo } =
      HistoryTreeProcessor.hashDomElement hf nm id := by
    simp [HistoryTreeProcessor.hashDomHistoryElement,
      HistoryTreeProcessor.hashDomElement, hattrs, hxp]
  refine ⟨_, ?_, history_roundtrip _, ?_, hhash⟩
  · simp [HistoryTreeProcessor.convertDomElementToHistoryElement, hd]
  · simp [HistoryTreeProcessor.compareHistoryElementAndDomElement, hhash,
      HistoryTreeProcessor.hashesEqual]

/-- C3 witness: the round trip at the concrete one-node tree. -/
theorem claim3_history_record_roundtrip_witness :
    ∃ r, HistoryTreeProcessor.convertDomElementToHistoryElement 2 nmSolo "0" = some r ∧
      historyElementFromJson (historyElementToJson r) = some r ∧
      HistoryTreeProcessor.compareHistoryElementAndDomElement 2 r nmSolo "0" = true ∧
      HistoryTreeProcessor.hashDomHistoryElement r =
        HistoryTreeProcessor.hashDomElement 2 nmSolo "0" :=
  claim3_history_record_roundtrip 2 nmSolo "0"
    { tagName := "button", xpath := "/html/body/button",
      attributes := [("id", "solo")], isVisible := true, isInteractive := true,
      isTopElement := true, isInViewport := true, highlightIndex := some 0,
      shadowRoot := false, viewportInfo := none, pageCoordinates := none,
      viewportCoordinates := none } (by decide)
